import Mathlib

/-!
# Massage pillow firmware (`src/main.cpp`)

A shallow embedding of the firmware: the wear-levelled EEPROM log
(`restoreState`, `saveState`), the output mapping (`setState`), the sleep/wake
protocol (`goSleep`) and the press classifier of `loop`, followed by the
properties established about them.

Conventions.
* `EEPROM_SIZE` comes from the board support package, not from `main.cpp`;
  it is a parameter of every definition that uses it.
* `unsigned int` cursor arithmetic stays far below `2^16`, so it is done in
  `Nat`; bytes are reduced `% 256` where the code converts to `uint8_t`;
  `unsigned long` clock differences are reduced `% 2^32`.
* `HIGH` is `true`, `LOW` is `false`.
-/

namespace MassagePillow

/-! ## Persistent state store -/

/-- EEPROM cells by address. -/
abbrev Eeprom := Nat → Nat

/-- Factory-erased memory: every byte is `0xFF`. -/
def factoryErased : Eeprom := fun _ => 0xFF

/-- `EEPROM.read(addr)`, a `uint8_t`. -/
def eepromRead (e : Eeprom) (addr : Nat) : Nat := e addr % 256

/-- `EEPROM.write(addr, val)`; `val` is converted to `uint8_t`. -/
def eepromWrite (e : Eeprom) (addr val : Nat) : Eeprom :=
  fun a => if a = addr then val % 256 else e a

/-- The EEPROM together with the globals `eepromIndex` and `eepromPriority`. -/
structure Store where
  eeprom : Eeprom
  eepromIndex : Nat
  eepromPriority : Nat

/-- The `for` loop of `restoreState` (lines 30-37), entered at loop variable `i`
with the globals `eepromIndex = idx` and `eepromPriority = pri`; the first
argument bounds the number of iterations still allowed. Returns the final
`(eepromIndex, eepromPriority)`. -/
def restoreLoop (EEPROM_SIZE : Nat) (e : Eeprom) : Nat → Nat → Nat → Nat → Nat × Nat
  | 0, _, idx, pri => (idx, pri)
  | fuel + 1, i, idx, pri =>
    if i < EEPROM_SIZE >>> 1 then
      let t := eepromRead e (i <<< 1)
      if (pri ≠ (EEPROM_SIZE >>> 1) - 1 ∧ t ≠ pri + 1)
          ∨ (pri = (EEPROM_SIZE >>> 1) - 1 ∧ t ≠ 0) then
        (idx, pri)
      else
        restoreLoop EEPROM_SIZE e fuel (i + 1) i t
    else
      (idx, pri)

/-- The cursor `(eepromIndex, eepromPriority)` that `restoreState` leaves
(lines 27-37). The loop variable runs from `1` and stops at `EEPROM_SIZE >> 1`,
so `EEPROM_SIZE >> 1` iterations always suffice. -/
def restoreCursor (EEPROM_SIZE : Nat) (e : Eeprom) : Nat × Nat :=
  restoreLoop EEPROM_SIZE e (EEPROM_SIZE >>> 1) 1 0 (eepromRead e 0)

/-- `restoreState()`: the globals it sets and the value it returns. -/
def restoreState (EEPROM_SIZE : Nat) (e : Eeprom) : Store × Nat :=
  let c := restoreCursor EEPROM_SIZE e
  (⟨e, c.1, c.2⟩, 3 &&& eepromRead e ((c.1 <<< 1) + 1))

/-- Line 44: the slot index a writing `saveState` moves to. -/
def nextIndex (EEPROM_SIZE : Nat) (eepromIndex : Nat) : Nat :=
  if eepromIndex + 1 < EEPROM_SIZE >>> 1 then eepromIndex + 1 else 0

/-- Line 45: the priority a writing `saveState` moves to. -/
def nextPriority (EEPROM_SIZE : Nat) (eepromPriority : Nat) : Nat :=
  if eepromPriority + 1 < (EEPROM_SIZE >>> 1) - 1 then eepromPriority + 1 else 0

/-- `saveState(state)`. -/
def saveState (EEPROM_SIZE : Nat) (s : Store) (state : Nat) : Store :=
  if eepromRead s.eeprom ((s.eepromIndex <<< 1) + 1) ≠ state then
    let idx := nextIndex EEPROM_SIZE s.eepromIndex
    let pri := nextPriority EEPROM_SIZE s.eepromPriority
    let e1 := eepromWrite s.eeprom (idx <<< 1) pri
    let e2 := eepromWrite e1 ((idx <<< 1) + 1) (3 &&& state)
    ⟨e2, idx, pri⟩
  else
    s

/-- The `EEPROM.write` calls `(address, value)` that `saveState(state)`
performs, in program order (none when the guard of line 43 fails). -/
def saveStateWrites (EEPROM_SIZE : Nat) (s : Store) (state : Nat) : List (Nat × Nat) :=
  if eepromRead s.eeprom ((s.eepromIndex <<< 1) + 1) ≠ state then
    let idx := nextIndex EEPROM_SIZE s.eepromIndex
    let pri := nextPriority EEPROM_SIZE s.eepromPriority
    [(idx <<< 1, pri), ((idx <<< 1) + 1, 3 &&& state)]
  else
    []

/-- The EEPROM when power is lost inside `saveState(state)` after the write of
line 46 (priority byte) and before the write of line 47 (value byte). -/
def saveStateCutOff (EEPROM_SIZE : Nat) (s : Store) (state : Nat) : Eeprom :=
  if eepromRead s.eeprom ((s.eepromIndex <<< 1) + 1) ≠ state then
    let idx := nextIndex EEPROM_SIZE s.eepromIndex
    let pri := nextPriority EEPROM_SIZE s.eepromPriority
    eepromWrite s.eeprom (idx <<< 1) pri
  else
    s.eeprom

/-- A run of completed `saveState` calls, in order. -/
def saveAll (EEPROM_SIZE : Nat) (s : Store) (states : List Nat) : Store :=
  states.foldl (saveState EEPROM_SIZE) s

/-- The store after a boot on factory-erased memory: the cursor is the one
`restoreState` sets. -/
def factoryStore (EEPROM_SIZE : Nat) : Store :=
  (restoreState EEPROM_SIZE factoryErased).1

/-! ## Actuator outputs -/

/-- The output pins driven by `setState`. -/
inductive Pin
  | LEFTER
  | RIGHTER
  | HEATER
  deriving DecidableEq, Repr

/-- Levels of the three output pins. -/
structure Outputs where
  lefter : Bool
  righter : Bool
  heater : Bool
  deriving DecidableEq, Repr

def HIGH : Bool := true

def LOW : Bool := false

def DIRECTION : Nat := 0x01

def HEATING : Nat := 0x02

def S_ALL_OFF : Nat := 0x07

/-- All three outputs `LOW`. -/
def allLow : Outputs := ⟨LOW, LOW, LOW⟩

/-- `digitalWrite(pin, level)` on an output pin. -/
def digitalWrite (o : Outputs) (pin : Pin) (level : Bool) : Outputs :=
  match pin with
  | Pin.LEFTER => { o with lefter := level }
  | Pin.RIGHTER => { o with righter := level }
  | Pin.HEATER => { o with heater := level }

/-- The `digitalWrite` calls of `setState(state)`, in program order
(lines 95-116). -/
def setStateWrites (state : Nat) : List (Pin × Bool) :=
  if state = S_ALL_OFF then
    [(Pin.HEATER, LOW), (Pin.LEFTER, LOW), (Pin.RIGHTER, LOW)]
  else
    (if state &&& HEATING ≠ 0 then [(Pin.HEATER, HIGH)] else [(Pin.HEATER, LOW)])
      ++ (if state &&& DIRECTION ≠ 0 then [(Pin.LEFTER, LOW), (Pin.RIGHTER, HIGH)]
          else [(Pin.LEFTER, HIGH), (Pin.RIGHTER, LOW)])

/-- The outputs after a list of `digitalWrite` calls. -/
def applyWrites (o : Outputs) (ws : List (Pin × Bool)) : Outputs :=
  ws.foldl (fun acc w => digitalWrite acc w.1 w.2) o

/-- The outputs after each of a list of `digitalWrite` calls, starting with
the outputs before the first one. -/
def outputTrace (o : Outputs) : List (Pin × Bool) → List Outputs
  | [] => [o]
  | w :: ws => o :: outputTrace (digitalWrite o w.1 w.2) ws

/-- `setState(state)`: the outputs when it returns. -/
def setState (o : Outputs) (state : Nat) : Outputs :=
  applyWrites o (setStateWrites state)

/-- Every pin configuration that occurs while a sequence of `setState` calls
runs, the ones between two `digitalWrite` calls of one `setState` included. -/
def setStateTrace (o : Outputs) (states : List Nat) : List Outputs :=
  outputTrace o (states.flatMap setStateWrites)

/-! ## Clock -/

def debounceDelay : Nat := 50

def longPressLength : Nat := 3000

def sessionLength : Nat := 900000

/-- `millis()` at time `t` (milliseconds since reset): an `unsigned long`. -/
def millis (t : Nat) : Nat := t % 4294967296

/-- `a - b` on `unsigned long` values. -/
def ulongSub (a b : Nat) : Nat := (a % 4294967296 + 4294967296 - b % 4294967296) % 4294967296

/-! ## Sleep and wake -/

/-- The calls a run makes, in order. -/
inductive Call
  | setState (state : Nat)
  | saveState (state : Nat)
  | delay (ms : Nat)
  | sleep_enable
  | attachInterrupt
  | sleep_cpu
  | readKeyBlocking (result : Bool)
  deriving DecidableEq, Repr

/-- The globals of `main.cpp`, the output pins and the `static` locals of
`loop`. -/
structure Machine where
  store : Store
  state : Nat
  poweredOn : Nat
  outputs : Outputs
  keyState : Bool
  lastKeyState : Bool
  unprocessed : Bool
  keyDownTime : Nat

/-- What the environment supplies while `goSleep` runs: `wakes j` is what
`readKeyBlocking()` reports when called after the `j`-th wake-up (`j = 0` is
the first; `true` is `HIGH`, a genuine press), and `wakeNow` is the time at
which line 137 reads the clock. -/
structure SleepEnv where
  wakes : Nat → Bool
  wakeNow : Nat

/-- Outcome of `goSleep`: the machine when it returns, the calls it made, the
number of wake-ups it slept through before returning, and the outputs during
its low-power halts. -/
structure SleepResult where
  machine : Machine
  calls : List Call
  wakeUps : Nat
  asleep : Outputs

/-- `goSleep()` (lines 124-138). Each `sleep_cpu()` returns at the next
wake-up, after the interrupt handler `wakeUp` has run. -/
def goSleep (EEPROM_SIZE : Nat) (m : Machine) (env : SleepEnv) : SleepResult :=
  let off := setState m.outputs S_ALL_OFF
  let st := saveState EEPROM_SIZE m.store m.state
  let key := env.wakes 0
  let again := key != HIGH
  let resumed := setState off m.state
  { machine := { m with store := st, outputs := resumed, poweredOn := millis env.wakeNow }
    calls :=
      [Call.setState S_ALL_OFF, Call.saveState m.state, Call.delay 200,
        Call.sleep_enable, Call.attachInterrupt, Call.sleep_cpu, Call.readKeyBlocking key]
      ++ (if again then [Call.sleep_enable, Call.attachInterrupt, Call.sleep_cpu] else [])
      ++ [Call.setState m.state]
    wakeUps := if again then 2 else 1
    asleep := off }

/-- `setup()` on EEPROM content `e`; `key0` is what the first `readKey()` of
`loop` will return, which initialises its `static` locals. -/
def setup (EEPROM_SIZE : Nat) (e : Eeprom) (env : SleepEnv) (key0 : Bool) : SleepResult :=
  let r := restoreState EEPROM_SIZE e
  goSleep EEPROM_SIZE
    { store := r.1, state := r.2, poweredOn := 0, outputs := allLow,
      keyState := key0, lastKeyState := key0, unprocessed := false, keyDownTime := 0 }
    env

/-! ## Main loop -/

/-- Inputs of one call of `loop()`: the stable key state `readKey()` returns
at line 158, the time of the tick (every `millis()` call of the tick reads the
same value), and the environment of the sleep the tick may enter. -/
structure Tick where
  key : Bool
  now : Nat
  sleep : SleepEnv

/-- Outcome of one call of `loop()`. -/
structure TickResult where
  machine : Machine
  cmd : Int
  calls : List Call

/-- Lines 156-178 of `loop()`: the classifier. Returns the updated `static`
locals and the command `cmd`. -/
def classify (m : Machine) (key : Bool) (now : Nat) : Machine × Int :=
  let cmd : Int := -1
  let keyState := key
  let edge := m.lastKeyState == LOW && keyState == HIGH
  let unprocessed := if edge then true else m.unprocessed
  let keyDownTime := if edge then millis now else m.keyDownTime
  let short := unprocessed && keyState == LOW
  let unprocessed := if short then false else unprocessed
  let cmd := if short then 1 else cmd
  let long := unprocessed && decide (ulongSub (millis now) keyDownTime > longPressLength)
  let unprocessed := if long then false else unprocessed
  let cmd := if long then 2 else cmd
  let expired := decide (ulongSub (millis now) m.poweredOn > sessionLength)
  let unprocessed := if expired then false else unprocessed
  let cmd := if expired then 2 else cmd
  ({ m with keyState := keyState, lastKeyState := keyState, unprocessed := unprocessed,
            keyDownTime := keyDownTime }, cmd)

/-- One call of `loop()` (lines 150-194). -/
def loop (EEPROM_SIZE : Nat) (m : Machine) (tk : Tick) : TickResult :=
  let c := classify m tk.key tk.now
  if c.2 = 1 then
    let state := (c.1.state + 1) % 4
    { machine := { c.1 with state := state, outputs := setState c.1.outputs state,
                            poweredOn := millis tk.now }
      cmd := c.2
      calls := [Call.setState state] }
  else if c.2 = 2 then
    let r := goSleep EEPROM_SIZE c.1 tk.sleep
    { machine := r.machine, cmd := c.2, calls := r.calls }
  else
    { machine := c.1, cmd := c.2, calls := [] }

/-- The commands emitted by consecutive calls of `loop()`. -/
def runLoop (EEPROM_SIZE : Nat) (m : Machine) : List Tick → List Int
  | [] => []
  | tk :: rest =>
    (loop EEPROM_SIZE m tk).cmd :: runLoop EEPROM_SIZE (loop EEPROM_SIZE m tk).machine rest

/-- The session timeout condition of line 174 at time `now`. -/
def sessionExpired (m : Machine) (now : Nat) : Prop :=
  ulongSub (millis now) m.poweredOn > sessionLength

/-- No call of `loop()` in the run meets the session timeout condition. -/
def noSessionTimeout (EEPROM_SIZE : Nat) (m : Machine) : List Tick → Prop
  | [] => True
  | tk :: rest =>
    ¬ sessionExpired m tk.now ∧ noSessionTimeout EEPROM_SIZE (loop EEPROM_SIZE m tk).machine rest

/-! ## The scan as the specification words it -/

/-- Successor of a priority in the specification's words: `0` after `N - 2`,
`p + 1` otherwise, with `N = EEPROM_SIZE / 2`. -/
def specSuccessor (EEPROM_SIZE p : Nat) : Nat :=
  if p = EEPROM_SIZE / 2 - 2 then 0 else p + 1

/-- Slots `0 .. k` carry consecutive priorities in the specification's sense. -/
def specRun (EEPROM_SIZE : Nat) (e : Eeprom) (k : Nat) : Prop :=
  ∀ i, 1 ≤ i → i ≤ k →
    eepromRead e (2 * i) = specSuccessor EEPROM_SIZE (eepromRead e (2 * (i - 1)))

instance decSpecRun (EEPROM_SIZE : Nat) (e : Eeprom) (k : Nat) :
    Decidable (specRun EEPROM_SIZE e k) :=
  decidable_of_iff
    (∀ j, j < k →
      eepromRead e (2 * (j + 1)) = specSuccessor EEPROM_SIZE (eepromRead e (2 * j)))
    ⟨fun h i h1 h2 => by
      have h3 := h (i - 1) (by omega)
      rwa [show i - 1 + 1 = i by omega] at h3,
     fun h j hj => by
      have h3 := h (j + 1) (by omega) (by omega)
      simpa using h3⟩

/-- The slot the specification's scan selects: the largest `k` below the slot
count whose slots `0 .. k` carry consecutive priorities. -/
def specScan (EEPROM_SIZE : Nat) (e : Eeprom) : Nat :=
  Nat.findGreatest (specRun EEPROM_SIZE e) (EEPROM_SIZE / 2 - 1)

/-- A press is pending since time `t0`. -/
def Armed (m : Machine) (t0 : Nat) : Prop :=
  m.lastKeyState = HIGH ∧ m.unprocessed = true ∧ m.keyDownTime = millis t0

/-- The key is held and no press is pending. -/
def Disarmed (m : Machine) : Prop :=
  m.lastKeyState = HIGH ∧ m.unprocessed = false

instance decSessionExpired (m : Machine) (now : Nat) : Decidable (sessionExpired m now) := by
  unfold sessionExpired
  infer_instance

instance decNoSessionTimeout (EEPROM_SIZE : Nat) :
    (ticks : List Tick) → (m : Machine) → Decidable (noSessionTimeout EEPROM_SIZE m ticks)
  | [], _ => isTrue trivial
  | tk :: rest, m =>
    have _ := decNoSessionTimeout EEPROM_SIZE rest (loop EEPROM_SIZE m tk).machine
    inferInstanceAs (Decidable (¬ sessionExpired m tk.now
      ∧ noSessionTimeout EEPROM_SIZE (loop EEPROM_SIZE m tk).machine rest))

/-! ## Concrete inputs -/

/-- The values `1, 2, 3, 0, 1, ...` that `n` consecutive short presses give
`state`, starting from state 0. -/
def cycling (n : Nat) : List Nat :=
  (List.range n).map (fun i => (i + 1) % 4)

/-- A 64-byte EEPROM whose slot 0 has priority 30 and slot 1 priority 0; every
other byte is `0xFF`. -/
def wrapLog : Eeprom :=
  fun a => if a = 0 then 30 else if a = 2 then 0 else 0xFF

/-- A machine awake with the key released, no press pending and the session
started at time 0. -/
def idleMachine (state : Nat) : Machine :=
  { store := factoryStore 64, state := state, poweredOn := 0, outputs := allLow,
    keyState := LOW, lastKeyState := LOW, unprocessed := false, keyDownTime := 0 }

/-- A machine with a press pending since time `t0`, the session started at
time 0. -/
def armedMachine (state t0 : Nat) : Machine :=
  { store := factoryStore 64, state := state, poweredOn := 0, outputs := allLow,
    keyState := HIGH, lastKeyState := HIGH, unprocessed := true, keyDownTime := millis t0 }

/-- A sleep ended by a genuine press at its first wake-up, at time `t`. -/
def pressWake (t : Nat) : SleepEnv :=
  { wakes := fun _ => true, wakeNow := t }

/-- A sleep whose first `k` wake-ups are spurious and whose later ones are
genuine presses; the clock reads `t` when `goSleep` returns. -/
def spuriousWakes (k t : Nat) : SleepEnv :=
  { wakes := fun j => decide (k ≤ j), wakeNow := t }

/-- A press at time 1000 that is still held at the tick of time 4000 and seen
released at the tick of time 4001. -/
def boundaryPress : List Tick :=
  [⟨HIGH, 1000, pressWake 4000⟩, ⟨HIGH, 4000, pressWake 4000⟩, ⟨LOW, 4001, pressWake 4000⟩]

/-- A press at time 899900 held over the tick of time 900001 and seen released
at the tick of time 900050; a sleep entered in between ends at time 900001. -/
def pressOverTimeout : List Tick :=
  [⟨HIGH, 899900, pressWake 900001⟩, ⟨HIGH, 900001, pressWake 900001⟩,
   ⟨LOW, 900050, pressWake 900001⟩]

/-- A press at time 1000 whose next tick comes `2^32 + 5` ms later, with the
key still held, and which is seen released one tick later. -/
def wrappedPress : List Tick :=
  [⟨HIGH, 1000, pressWake 0⟩, ⟨HIGH, 4294967296 + 1005, pressWake 0⟩,
   ⟨LOW, 4294967296 + 1006, pressWake 0⟩]

/-- A press at time 1000 held over the tick of time 4001 and seen released at
the tick of time 4002; the sleep the long press enters ends at time 4001. -/
def longPress : List Tick :=
  [⟨HIGH, 1000, pressWake 4001⟩, ⟨HIGH, 4001, pressWake 4001⟩, ⟨LOW, 4002, pressWake 4001⟩]

/-- A press at time 1000 held at the tick of time 2000 and seen released at the
tick of time 3999. -/
def shortPress : List Tick :=
  [⟨HIGH, 1000, pressWake 0⟩, ⟨HIGH, 2000, pressWake 0⟩, ⟨LOW, 3999, pressWake 0⟩]

/-! ## Write traces of the store -/

/-- The `EEPROM.write` calls of a run of `saveState` calls, in order. -/
def saveAllWrites (EEPROM_SIZE : Nat) (s : Store) : List Nat → List (Nat × Nat)
  | [] => []
  | v :: vs =>
    saveStateWrites EEPROM_SIZE s v
      ++ saveAllWrites EEPROM_SIZE (saveState EEPROM_SIZE s v) vs

/-- The slots written by a run of `saveState` calls, one entry for each call
that writes, in order. -/
def slotsWritten (EEPROM_SIZE : Nat) (s : Store) : List Nat → List Nat
  | [] => []
  | v :: vs =>
    if saveStateWrites EEPROM_SIZE s v = [] then
      slotsWritten EEPROM_SIZE (saveState EEPROM_SIZE s v) vs
    else
      (saveState EEPROM_SIZE s v).eepromIndex
        :: slotsWritten EEPROM_SIZE (saveState EEPROM_SIZE s v) vs

/-! ## Output mapping as the specification words it -/

/-- The outputs the specification assigns to a state in {0,1,2,3}: heater is
bit 1, the outward line (`RIGHTER`) is bit 0, the inward line (`LEFTER`) is its
negation. -/
def specOutputs (s : Nat) : Outputs :=
  { lefter := !s.testBit 0, righter := s.testBit 0, heater := s.testBit 1 }

/-! ## Debouncer -/

/-- The `static` locals of `readKey`. -/
structure Debouncer where
  lastDebounceTime : Nat
  lastButtonState : Bool
  keyState : Bool
  deriving DecidableEq, Repr

/-- One poll of the button: the level `digitalRead(BUTTON)` returns (`LOW`
while the button is pressed) and the time of the poll (every `millis()` call of
the poll reads the same value). -/
structure Poll where
  reading : Bool
  now : Nat
  deriving DecidableEq, Repr

/-- The `static` initialisers of `readKey` (lines 52-54), run when it is first
called; `sample` is what `digitalRead(BUTTON)` returns there. -/
def readKeyInit (sample : Bool) : Debouncer :=
  { lastDebounceTime := 0, lastButtonState := sample,
    keyState := if !sample then HIGH else LOW }

/-- `readKey()` (lines 56-68): the `static` locals after the call; the value
returned is their `keyState`. -/
def readKey (d : Debouncer) (p : Poll) : Debouncer :=
  let changed := p.reading != d.lastButtonState
  let lastDebounceTime := if changed then millis p.now else d.lastDebounceTime
  let lastButtonState := if changed then p.reading else d.lastButtonState
  let keyState :=
    if ulongSub (millis p.now) lastDebounceTime > debounceDelay then
      (if !p.reading then HIGH else LOW)
    else d.keyState
  { lastDebounceTime := lastDebounceTime, lastButtonState := lastButtonState,
    keyState := keyState }

/-- The `static` locals of `readKey` after consecutive polls. -/
def readKeys (d : Debouncer) (polls : List Poll) : Debouncer :=
  polls.foldl readKey d

/-- The times of the polls at which the value returned by `readKey` differs
from the value it returned before. -/
def stableChanges (d : Debouncer) : List Poll → List Nat
  | [] => []
  | p :: rest =>
    if (readKey d p).keyState ≠ d.keyState then
      p.now :: stableChanges (readKey d p) rest
    else
      stableChanges (readKey d p) rest

/-- The raw sample taken last before the poll that follows `pre`: the reading
of the last poll of `pre`, or the sample of the `static` initialiser. -/
def prevSample (sample0 : Bool) : List Poll → Bool
  | [] => sample0
  | p :: rest => prevSample p.reading rest

/-- Outcome of `readKeyBlocking` on a finite list of polls. -/
inductive Blocking
  | waiting
  | returned (key : Bool)
  | unassigned
  deriving DecidableEq, Repr

/-- The `while` loop of `readKeyBlocking` (lines 77-83) and its `return`. Each
poll is one evaluation of the loop condition together with the sample the body
takes; `reading` is `none` until the body has assigned it. The result is
`waiting` when the polls end before the loop does, and `unassigned` when the
loop ends before its body has run. -/
def readKeyBlockingLoop (lastDebounceTime : Nat) (lastButtonState : Bool)
    (reading : Option Bool) : List Poll → Blocking
  | [] => Blocking.waiting
  | p :: rest =>
    if ulongSub (millis p.now) lastDebounceTime < debounceDelay then
      if p.reading != lastButtonState then
        readKeyBlockingLoop (millis p.now) p.reading (some p.reading) rest
      else
        readKeyBlockingLoop lastDebounceTime lastButtonState (some p.reading) rest
    else
      match reading with
      | some r => Blocking.returned (if !r then HIGH else LOW)
      | none => Blocking.unassigned

/-- `readKeyBlocking()` (lines 71-86): `start` is the clock value and the
sample of lines 75-76. -/
def readKeyBlocking (start : Poll) (polls : List Poll) : Blocking :=
  readKeyBlockingLoop (millis start.now) start.reading none polls

/-! ## Runs of the main loop -/

/-- The machine before the first and after each of consecutive calls of
`loop()`. -/
def runMachines (EEPROM_SIZE : Nat) (m : Machine) : List Tick → List Machine
  | [] => [m]
  | tk :: rest => m :: runMachines EEPROM_SIZE (loop EEPROM_SIZE m tk).machine rest

/-- The machine after consecutive calls of `loop()`. -/
def runFinal (EEPROM_SIZE : Nat) (m : Machine) : List Tick → Machine
  | [] => m
  | tk :: rest => runFinal EEPROM_SIZE (loop EEPROM_SIZE m tk).machine rest

/-- The calls made by consecutive calls of `loop()`, in order. -/
def runCalls (EEPROM_SIZE : Nat) (m : Machine) : List Tick → List Call
  | [] => []
  | tk :: rest =>
    (loop EEPROM_SIZE m tk).calls ++ runCalls EEPROM_SIZE (loop EEPROM_SIZE m tk).machine rest

/-- The `EEPROM.write` calls of `goSleep()`: those of its `saveState(state)`. -/
def goSleepWrites (EEPROM_SIZE : Nat) (m : Machine) : List (Nat × Nat) :=
  saveStateWrites EEPROM_SIZE m.store m.state

/-- The `EEPROM.write` calls of `setup()`: those of its `goSleep()`. -/
def setupWrites (EEPROM_SIZE : Nat) (e : Eeprom) : List (Nat × Nat) :=
  saveStateWrites EEPROM_SIZE (restoreState EEPROM_SIZE e).1 (restoreState EEPROM_SIZE e).2

/-- The `EEPROM.write` calls of one call of `loop()`: those of the `goSleep()`
of command 2. -/
def loopWrites (EEPROM_SIZE : Nat) (m : Machine) (tk : Tick) : List (Nat × Nat) :=
  if (classify m tk.key tk.now).2 = 2 then
    goSleepWrites EEPROM_SIZE (classify m tk.key tk.now).1
  else
    []

/-- The `EEPROM.write` calls of consecutive calls of `loop()`, in order. -/
def runWrites (EEPROM_SIZE : Nat) (m : Machine) : List Tick → List (Nat × Nat)
  | [] => []
  | tk :: rest =>
    loopWrites EEPROM_SIZE m tk ++ runWrites EEPROM_SIZE (loop EEPROM_SIZE m tk).machine rest

/-- For each call of `loop()` in the run that emits the short-press command, in
order: `state` and the outputs when it returns, and the calls it made. -/
def shortPresses (EEPROM_SIZE : Nat) (m : Machine) :
    List Tick → List (Nat × Outputs × List Call)
  | [] => []
  | tk :: rest =>
    if (loop EEPROM_SIZE m tk).cmd = 1 then
      ((loop EEPROM_SIZE m tk).machine.state, (loop EEPROM_SIZE m tk).machine.outputs,
          (loop EEPROM_SIZE m tk).calls)
        :: shortPresses EEPROM_SIZE (loop EEPROM_SIZE m tk).machine rest
    else
      shortPresses EEPROM_SIZE (loop EEPROM_SIZE m tk).machine rest

/-- The store after a list of `EEPROM.write` calls. -/
def applyEepromWrites (e : Eeprom) (ws : List (Nat × Nat)) : Eeprom :=
  ws.foldl (fun acc w => eepromWrite acc w.1 w.2) e

/-- A 64-byte EEPROM whose slot 0 has priority 100; every other byte is
`0xFF`. -/
def strayPriorityLog : Eeprom :=
  fun a => if a = 0 then 100 else 0xFF

/-- Polls of a press of 60 ms seen 10 ms after the first poll, and of its
release. -/
def pressPolls : List Poll :=
  [⟨HIGH, 0⟩, ⟨LOW, 10⟩, ⟨LOW, 30⟩, ⟨LOW, 61⟩, ⟨HIGH, 70⟩, ⟨HIGH, 121⟩]

/-- Polls of a signal that changes at every poll, 15 ms apart. -/
def bouncePolls : List Poll :=
  [⟨LOW, 10⟩, ⟨HIGH, 25⟩, ⟨LOW, 40⟩, ⟨HIGH, 55⟩]

/-- Four press and release pairs, 100 ms each, 100 ms apart. -/
def fourPresses : List Tick :=
  [⟨HIGH, 100, pressWake 0⟩, ⟨LOW, 200, pressWake 0⟩, ⟨HIGH, 300, pressWake 0⟩,
   ⟨LOW, 400, pressWake 0⟩, ⟨HIGH, 500, pressWake 0⟩, ⟨LOW, 600, pressWake 0⟩,
   ⟨HIGH, 700, pressWake 0⟩, ⟨LOW, 800, pressWake 0⟩]

set_option maxRecDepth 100000

/-! ## Arithmetic helpers -/

theorem shiftRight_one (n : Nat) : n >>> 1 = n / 2 := by
  simp [Nat.shiftRight_eq_div_pow]

theorem shiftLeft_one (n : Nat) : n <<< 1 = 2 * n := by
  simp [Nat.shiftLeft_eq, Nat.mul_comm]

theorem and_three_of_lt (b : Nat) (h : b < 4) : 3 &&& b = b := by
  interval_cases b <;> rfl

theorem eepromRead_write_ne (e : Eeprom) (a b v : Nat) (h : a ≠ b) :
    eepromRead (eepromWrite e b v) a = eepromRead e a := by
  simp [eepromRead, eepromWrite, h]

/-- The unsigned difference of two clock readings is the elapsed time, as long
as less than `2^32` ms have elapsed. -/
theorem ulongSub_millis (t d : Nat) (hd : d < 4294967296) :
    ulongSub (millis (t + d)) (millis t) = d := by
  unfold ulongSub millis
  omega

/-! ## The scan of `restoreState` -/

/-- The loop of `restoreState` has left by the time its iteration bound is
used up: one more allowed iteration changes nothing. -/
theorem restoreLoop_fuel (E : Nat) (e : Eeprom) :
    ∀ fuel i idx pri, E >>> 1 ≤ i + fuel →
      restoreLoop E e (fuel + 1) i idx pri = restoreLoop E e fuel i idx pri := by
  intro fuel
  induction fuel with
  | zero =>
    intro i idx pri h
    have hi : ¬ i < E >>> 1 := by omega
    simp [restoreLoop, hi]
  | succ n ih =>
    intro i idx pri h
    rw [restoreLoop, restoreLoop]
    split
    · dsimp only
      split
      · rfl
      · exact ih (i + 1) i _ (by omega)
    · rfl

/-- The loop stops at once when the priority of slot `i` is not the expected
one. -/
theorem restoreLoop_break (E : Nat) (e : Eeprom) (fuel i idx pri : Nat)
    (h : (pri ≠ E >>> 1 - 1 ∧ eepromRead e (i <<< 1) ≠ pri + 1)
      ∨ (pri = E >>> 1 - 1 ∧ eepromRead e (i <<< 1) ≠ 0)) :
    restoreLoop E e fuel i idx pri = (idx, pri) := by
  cases fuel with
  | zero => rfl
  | succ n =>
    simp only [restoreLoop]
    split <;> simp [h]

/-- The scan of `restoreState` reads priority bytes only. -/
theorem restoreLoop_congr (E : Nat) (e1 e2 : Eeprom)
    (h : ∀ i, eepromRead e1 (i <<< 1) = eepromRead e2 (i <<< 1)) :
    ∀ fuel i idx pri, restoreLoop E e1 fuel i idx pri = restoreLoop E e2 fuel i idx pri := by
  intro fuel
  induction fuel with
  | zero => intro i idx pri; rfl
  | succ n ih =>
    intro i idx pri
    simp only [restoreLoop, h i, ih]

theorem restoreCursor_congr (E : Nat) (e1 e2 : Eeprom)
    (h : ∀ i, eepromRead e1 (i <<< 1) = eepromRead e2 (i <<< 1)) :
    restoreCursor E e1 = restoreCursor E e2 := by
  unfold restoreCursor
  rw [restoreLoop_congr E e1 e2 h]
  have h0 := h 0
  simp only [Nat.zero_shiftLeft] at h0
  rw [h0]

/-- On factory-erased memory `restoreState` leaves the cursor at slot 0 with
priority `0xFF`. -/
theorem factoryStore_eq (E : Nat) (hE : E < 512) :
    factoryStore E = ⟨factoryErased, 0, 255⟩ := by
  have hb : restoreCursor E factoryErased = (0, 255) := by
    unfold restoreCursor
    apply restoreLoop_break
    left
    simp [eepromRead, factoryErased, shiftRight_one]
    omega
  simp [factoryStore, restoreState, hb]

/-! ## Persistence log: round trip, wrap-around, scan -/

/-- C1 (fails on the code): on factory-erased memory of any size from 4 to 510
bytes, after one completed `saveState(v)` with `v` in {0,1,2,3} the cursor is at
slot 1 and its value byte holds `v`, yet a fresh `restoreState()` stays at slot 0
and returns 3: the priority `0xFF` of the never-written slot 0 is not followed
by the priority 0 that the first save writes. -/
theorem restoreState_misses_first_save (E v : Nat) (hE : 4 ≤ E) (hE' : E < 512) (hv : v < 4) :
    (saveState E (factoryStore E) v).eepromIndex = 1
    ∧ eepromRead (saveState E (factoryStore E) v).eeprom 3 = v
    ∧ (restoreState E (saveState E (factoryStore E) v).eeprom).1.eepromIndex = 0
    ∧ (restoreState E (saveState E (factoryStore E) v).eeprom).2 = 3 := by
  have hs : saveState E (factoryStore E) v
      = ⟨eepromWrite (eepromWrite factoryErased 2 0) 3 (3 &&& v), 1, 0⟩ := by
    rw [factoryStore_eq E hE']
    have h1 : eepromRead factoryErased 1 ≠ v := by
      simp [eepromRead, factoryErased]; omega
    have h2 : nextIndex E 0 = 1 := by
      simp [nextIndex, shiftRight_one]; omega
    have h3 : nextPriority E 255 = 0 := by
      simp [nextPriority, shiftRight_one]; omega
    simp [saveState, h1, h2, h3]
  have hm : 3 &&& v = v := and_three_of_lt v hv
  have hc : restoreCursor E (eepromWrite (eepromWrite factoryErased 2 0) 3 (3 &&& v))
      = (0, 255) := by
    unfold restoreCursor
    apply restoreLoop_break
    left
    simp [eepromRead, eepromWrite, factoryErased, shiftRight_one]
    omega
  rw [hs]
  refine ⟨rfl, ?_, ?_, ?_⟩
  · simp [eepromRead, eepromWrite, hm]; omega
  · simp [restoreState, hc]
  · simp [restoreState, hc, eepromRead, eepromWrite, factoryErased]
    rfl

/-- C1 at a 64-byte EEPROM and `saveState(0)`: the value restored after the
save is 3. -/
theorem restoreState_misses_first_save_witness :
    (saveState 64 (factoryStore 64) 0).eepromIndex = 1
    ∧ eepromRead (saveState 64 (factoryStore 64) 0).eeprom 3 = 0
    ∧ (restoreState 64 (saveState 64 (factoryStore 64) 0).eeprom).1.eepromIndex = 0
    ∧ (restoreState 64 (saveState 64 (factoryStore 64) 0).eeprom).2 = 3 :=
  restoreState_misses_first_save 64 0 (by decide) (by decide) (by decide)

/-- C2 (fails on the code): on a 64-byte EEPROM (32 slots), after the 63 saves
`1, 2, 3, 0, ..., 3` from factory-erased memory the cursor is at slot 31 and the
last value saved is 3, but a fresh `restoreState()` stops at slot 30 and returns
2, the value of the 62nd save: slot 31 carries priority 0 after priority 30, and
the scan accepts 0 only after priority 31. -/
theorem restoreState_stale_after_wrap :
    (cycling 63).getLast? = some 3
    ∧ (saveAll 64 (factoryStore 64) (cycling 63)).eepromIndex = 31
    ∧ eepromRead (saveAll 64 (factoryStore 64) (cycling 63)).eeprom 60 = 30
    ∧ eepromRead (saveAll 64 (factoryStore 64) (cycling 63)).eeprom 62 = 0
    ∧ eepromRead (saveAll 64 (factoryStore 64) (cycling 63)).eeprom 63 = 3
    ∧ (restoreState 64 (saveAll 64 (factoryStore 64) (cycling 63)).eeprom).1.eepromIndex = 30
    ∧ (restoreState 64 (saveAll 64 (factoryStore 64) (cycling 63)).eeprom).2 = 2 := by
  decide

/-- C3 (fails on the code): `restoreState` does not compute the scan the
specification defines. With 32 slots, slot 0 at priority 30 and slot 1 at
priority 0, the specification's scan selects slot 1 and `restoreState` stays at
slot 0; on the log reached by 63 saves from factory-erased memory the
specification's scan selects slot 31 and `restoreState` stops at slot 30. -/
theorem restoreState_differs_from_specScan :
    specScan 64 wrapLog = 1
    ∧ (restoreState 64 wrapLog).1.eepromIndex = 0
    ∧ specScan 64 (saveAll 64 (factoryStore 64) (cycling 63)).eeprom = 31
    ∧ (restoreState 64 (saveAll 64 (factoryStore 64) (cycling 63)).eeprom).1.eepromIndex
        = 30 := by
  decide

/-! ## Suppressed saves -/

/-- C4 (as stated, fails): on factory-erased memory `restoreState()` returns 3,
the low two bits of the byte `0xFF` of slot 0, and the `saveState(3)` that follows
writes both bytes of slot 1 and moves the cursor there. -/
theorem saveState_writes_on_factory_boot :
    (restoreState 64 factoryErased).2 = 3
    ∧ 3 &&& eepromRead factoryErased 1 = 3
    ∧ saveStateWrites 64 (restoreState 64 factoryErased).1 3 = [(2, 0), (3, 3)]
    ∧ (saveState 64 (restoreState 64 factoryErased).1 3).eepromIndex = 1 := by
  decide

/-- C4 (amended): `saveState(v)` performs no `EEPROM.write` and leaves the
store, cursor included, as it was when `v` equals the whole value byte of the
current slot; otherwise it performs its two writes. In particular, when the
value byte of the slot that `restoreState()` selects is in {0,1,2,3},
`restoreState()` followed by `saveState` of its result performs no write, and
`setup()` returns with the store as `restoreState()` left it. -/
theorem saveState_suppressed_iff_byte (E : Nat) (s : Store) (v : Nat) :
    (eepromRead s.eeprom ((s.eepromIndex <<< 1) + 1) = v →
        saveStateWrites E s v = [] ∧ saveState E s v = s)
    ∧ (eepromRead s.eeprom ((s.eepromIndex <<< 1) + 1) ≠ v →
        saveStateWrites E s v
          = [(nextIndex E s.eepromIndex <<< 1, nextPriority E s.eepromPriority),
             ((nextIndex E s.eepromIndex <<< 1) + 1, 3 &&& v)])
    ∧ ∀ e : Eeprom,
        eepromRead e (((restoreState E e).1.eepromIndex <<< 1) + 1) < 4 →
        saveStateWrites E (restoreState E e).1 (restoreState E e).2 = []
        ∧ saveState E (restoreState E e).1 (restoreState E e).2 = (restoreState E e).1
        ∧ ∀ (env : SleepEnv) (key0 : Bool),
            (setup E e env key0).machine.store = (restoreState E e).1 := by
  have key : ∀ (t : Store) (w : Nat), eepromRead t.eeprom ((t.eepromIndex <<< 1) + 1) = w →
      saveStateWrites E t w = [] ∧ saveState E t w = t := by
    intro t w h
    simp [saveStateWrites, saveState, h]
  refine ⟨key s v, ?_, ?_⟩
  · intro h
    simp [saveStateWrites, h]
  · intro e h
    have hr : (restoreState E e).2
        = 3 &&& eepromRead e (((restoreState E e).1.eepromIndex <<< 1) + 1) := rfl
    have hb : eepromRead (restoreState E e).1.eeprom
        (((restoreState E e).1.eepromIndex <<< 1) + 1) = (restoreState E e).2 := by
      rw [hr, and_three_of_lt _ h]
      rfl
    refine ⟨(key _ _ hb).1, (key _ _ hb).2, ?_⟩
    intro env key0
    exact (key _ _ hb).2

/-- C4 (amended) at a concrete store: after `saveState(2)` on factory-erased
memory a second `saveState(2)` writes nothing, and a boot on the log left by 32
saves writes nothing. -/
theorem saveState_suppressed_iff_byte_witness :
    (saveStateWrites 64 (saveState 64 (factoryStore 64) 2) 2 = []
      ∧ saveState 64 (saveState 64 (factoryStore 64) 2) 2 = saveState 64 (factoryStore 64) 2)
    ∧ saveStateWrites 64
        (restoreState 64 (saveAll 64 (factoryStore 64) (cycling 32)).eeprom).1
        (restoreState 64 (saveAll 64 (factoryStore 64) (cycling 32)).eeprom).2 = [] :=
  ⟨(saveState_suppressed_iff_byte 64 (saveState 64 (factoryStore 64) 2) 2).1 (by decide),
   ((saveState_suppressed_iff_byte 64 (factoryStore 64) 0).2.2
      (saveAll 64 (factoryStore 64) (cycling 32)).eeprom (by decide)).1⟩

/-! ## Power loss inside a save -/

/-- C5 (as stated, fails): on a 64-byte EEPROM, after the 32 completed saves
`1, 2, 3, 0, ..., 0` a fresh `restoreState()` returns 0, the last completed save;
when a further `saveState(2)` is cut off after its priority byte, `restoreState()`
moves to slot 1 and returns 1, the value the first save left there. -/
theorem restoreState_after_cut_off_save :
    (cycling 32).getLast? = some 0
    ∧ (restoreState 64 (saveAll 64 (factoryStore 64) (cycling 32)).eeprom).2 = 0
    ∧ (restoreState 64
        (saveStateCutOff 64 (saveAll 64 (factoryStore 64) (cycling 32)) 2)).1.eepromIndex = 1
    ∧ (restoreState 64
        (saveStateCutOff 64 (saveAll 64 (factoryStore 64) (cycling 32)) 2)).2 = 1 := by
  decide

/-- C5 (amended): for every EEPROM content and cursor, when `saveState(v)` is cut
off after its priority byte has been written and before its value byte has,
`restoreState()` over that EEPROM sets the same `eepromIndex` and
`eepromPriority` as it would after the completed save, and returns the low two
bits of the value byte which the slot it selects held before the save began. -/
theorem restoreState_cut_off_returns_old_byte (E : Nat) (s : Store) (v : Nat) :
    (restoreState E (saveStateCutOff E s v)).1.eepromIndex
        = (restoreState E (saveState E s v).eeprom).1.eepromIndex
    ∧ (restoreState E (saveStateCutOff E s v)).1.eepromPriority
        = (restoreState E (saveState E s v).eeprom).1.eepromPriority
    ∧ (restoreState E (saveStateCutOff E s v)).2
        = 3 &&& eepromRead s.eeprom
            (((restoreState E (saveState E s v).eeprom).1.eepromIndex <<< 1) + 1) := by
  have hc : restoreCursor E (saveStateCutOff E s v)
      = restoreCursor E (saveState E s v).eeprom := by
    apply restoreCursor_congr
    intro i
    unfold saveStateCutOff saveState
    split
    · dsimp only
      exact (eepromRead_write_ne _ (i <<< 1) (nextIndex E s.eepromIndex <<< 1 + 1) _
        (by simp only [shiftLeft_one]; omega)).symm
    · rfl
  have hodd : ∀ k, eepromRead (saveStateCutOff E s v) ((k <<< 1) + 1)
      = eepromRead s.eeprom ((k <<< 1) + 1) := by
    intro k
    unfold saveStateCutOff
    split
    · dsimp only
      rw [eepromRead_write_ne _ _ _ _ (by simp only [shiftLeft_one]; omega)]
    · rfl
  refine ⟨?_, ?_, ?_⟩
  · simp only [restoreState, hc]
  · simp only [restoreState, hc]
  · simp only [restoreState, hodd, hc]

/-! ## Sleep and wake -/

/-- C6 (fails on the code): when the first two wake-ups are spurious and the
third is a genuine press, `goSleep()` verifies the first wake-up only: line 131
is an `if`, not a loop. It sleeps through two wake-ups, returns after the
second, spurious one without calling `readKeyBlocking()` again, calls
`setState(state)` there and resets `poweredOn`, so the outputs, all `LOW` during
the halts, carry the mapping of state 1 (`RIGHTER` high) before any genuine
press. -/
theorem goSleep_resumes_after_second_spurious_wake :
    (spuriousWakes 2 1000).wakes 0 = false
    ∧ (spuriousWakes 2 1000).wakes 1 = false
    ∧ (spuriousWakes 2 1000).wakes 2 = true
    ∧ (goSleep 64 (idleMachine 1) (spuriousWakes 2 1000)).wakeUps = 2
    ∧ (goSleep 64 (idleMachine 1) (spuriousWakes 2 1000)).calls
        = [Call.setState 7, Call.saveState 1, Call.delay 200,
           Call.sleep_enable, Call.attachInterrupt, Call.sleep_cpu,
           Call.readKeyBlocking false,
           Call.sleep_enable, Call.attachInterrupt, Call.sleep_cpu,
           Call.setState 1]
    ∧ (goSleep 64 (idleMachine 1) (spuriousWakes 2 1000)).asleep = allLow
    ∧ (goSleep 64 (idleMachine 1) (spuriousWakes 2 1000)).machine.outputs = ⟨LOW, HIGH, LOW⟩
    ∧ (goSleep 64 (idleMachine 1) (spuriousWakes 2 1000)).machine.poweredOn = 1000 := by
  decide

/-! ## Direction outputs -/

/-- C7 (fails on the code): starting from all outputs low, `setState(1)`
followed by `setState(2)` passes through a pin configuration with `LEFTER` and
`RIGHTER` both high: the branch for a clear direction bit raises `LEFTER` before
it lowers `RIGHTER`. -/
theorem setState_both_directions_high :
    setStateTrace allLow [1, 2]
      = [⟨LOW, LOW, LOW⟩, ⟨LOW, LOW, LOW⟩, ⟨LOW, LOW, LOW⟩, ⟨LOW, HIGH, LOW⟩,
         ⟨LOW, HIGH, HIGH⟩, ⟨HIGH, HIGH, HIGH⟩, ⟨HIGH, LOW, HIGH⟩]
    ∧ (⟨HIGH, HIGH, HIGH⟩ : Outputs) ∈ setStateTrace allLow [1, 2] := by
  decide

/-! ## Press classification -/

theorem loop_cmd (E : Nat) (m : Machine) (tk : Tick) :
    (loop E m tk).cmd = (classify m tk.key tk.now).2 := by
  unfold loop
  dsimp only
  split_ifs <;> rfl

theorem loop_lastKeyState (E : Nat) (m : Machine) (tk : Tick) :
    (loop E m tk).machine.lastKeyState = tk.key := by
  unfold loop
  dsimp only
  split_ifs <;> rfl

theorem loop_unprocessed (E : Nat) (m : Machine) (tk : Tick) :
    (loop E m tk).machine.unprocessed = (classify m tk.key tk.now).1.unprocessed := by
  unfold loop
  dsimp only
  split_ifs <;> rfl

theorem loop_keyDownTime (E : Nat) (m : Machine) (tk : Tick) :
    (loop E m tk).machine.keyDownTime = (classify m tk.key tk.now).1.keyDownTime := by
  unfold loop
  dsimp only
  split_ifs <;> rfl

theorem runLoop_cons (E : Nat) (m : Machine) (tk : Tick) (rest : List Tick) :
    runLoop E m (tk :: rest)
      = (loop E m tk).cmd :: runLoop E (loop E m tk).machine rest := rfl

/-- The tick that sees the key go down emits nothing and arms the classifier. -/
theorem press_tick (E : Nat) (m : Machine) (tk : Tick)
    (hm : m.lastKeyState = LOW) (hk : tk.key = HIGH) (hno : ¬ sessionExpired m tk.now) :
    (loop E m tk).cmd = -1 ∧ Armed (loop E m tk).machine tk.now := by
  have h0 : ulongSub (millis tk.now) (millis tk.now) = 0 := by
    have h := ulongSub_millis tk.now 0 (by norm_num)
    simpa using h
  unfold sessionExpired at hno
  refine ⟨?_, loop_lastKeyState E m tk ▸ hk, ?_, ?_⟩
  · rw [loop_cmd]
    simp [classify, hm, hk, HIGH, LOW, h0, hno, longPressLength]
  · rw [loop_unprocessed]
    simp [classify, hm, hk, HIGH, LOW, h0, hno, longPressLength]
  · rw [loop_keyDownTime]
    simp [classify, hm, hk, HIGH, LOW]

/-- A tick with the key held while a press is pending: the long press fires
when more than 3000 ms are measured, otherwise nothing happens. -/
theorem armed_tick (E : Nat) (m : Machine) (t0 : Nat) (tk : Tick)
    (hA : Armed m t0) (hk : tk.key = HIGH) (hno : ¬ sessionExpired m tk.now) :
    (longPressLength < ulongSub (millis tk.now) (millis t0) →
        (loop E m tk).cmd = 2 ∧ Disarmed (loop E m tk).machine)
    ∧ (¬ longPressLength < ulongSub (millis tk.now) (millis t0) →
        (loop E m tk).cmd = -1 ∧ Armed (loop E m tk).machine t0) := by
  obtain ⟨hl, hu, hd⟩ := hA
  unfold sessionExpired at hno
  constructor
  · intro h
    refine ⟨?_, loop_lastKeyState E m tk ▸ hk, ?_⟩
    · rw [loop_cmd]
      simp [classify, hl, hu, hd, hk, HIGH, LOW, hno, h]
    · rw [loop_unprocessed]
      simp [classify, hl, hu, hd, hk, HIGH, LOW, hno, h]
  · intro h
    refine ⟨?_, loop_lastKeyState E m tk ▸ hk, ?_, ?_⟩
    · rw [loop_cmd]
      simp [classify, hl, hu, hd, hk, HIGH, LOW, hno, h]
    · rw [loop_unprocessed]
      simp [classify, hl, hu, hd, hk, HIGH, LOW, hno, h]
    · rw [loop_keyDownTime]
      simp [classify, hl, hd, hk, HIGH, LOW]

/-- The tick that sees the key released while a press is pending emits the
short press. -/
theorem armed_release (E : Nat) (m : Machine) (t0 : Nat) (tk : Tick)
    (hA : Armed m t0) (hk : tk.key = LOW) (hno : ¬ sessionExpired m tk.now) :
    (loop E m tk).cmd = 1 := by
  obtain ⟨hl, hu, _⟩ := hA
  unfold sessionExpired at hno
  rw [loop_cmd]
  simp [classify, hl, hu, hk, HIGH, LOW, hno]

/-- With the key held and no press pending a tick emits nothing. -/
theorem disarmed_tick (E : Nat) (m : Machine) (tk : Tick)
    (hD : Disarmed m) (hno : ¬ sessionExpired m tk.now) :
    (loop E m tk).cmd = -1 ∧ (loop E m tk).machine.unprocessed = false := by
  obtain ⟨hl, hu⟩ := hD
  unfold sessionExpired at hno
  constructor
  · rw [loop_cmd]
    simp [classify, hl, hu, HIGH, LOW, hno]
  · rw [loop_unprocessed]
    simp [classify, hl, hu, HIGH, LOW, hno]

theorem disarmed_run (E : Nat) (held : List Tick) (rel : Tick) :
    ∀ m : Machine, Disarmed m → (∀ tk ∈ held, tk.key = HIGH) →
      noSessionTimeout E m (held ++ [rel]) →
      ∀ c ∈ runLoop E m (held ++ [rel]), c = -1 := by
  induction held with
  | nil =>
    intro m hD _ hno c hc
    simp only [List.nil_append, runLoop, List.mem_singleton] at hc
    rw [hc]
    exact (disarmed_tick E m rel hD hno.1).1
  | cons tk tl ih =>
    intro m hD hh hno c hc
    have hk : tk.key = HIGH := hh tk (List.mem_cons_self _ _)
    have h1 := disarmed_tick E m tk hD hno.1
    have hD' : Disarmed (loop E m tk).machine := ⟨loop_lastKeyState E m tk ▸ hk, h1.2⟩
    rw [List.cons_append, runLoop_cons, List.mem_cons] at hc
    rcases hc with hc | hc
    · rw [hc]; exact h1.1
    · exact ih _ hD' (fun t ht => hh t (List.mem_cons_of_mem _ ht)) hno.2 c hc

theorem armed_long_run (E : Nat) (t0 : Nat) (held : List Tick) (rel : Tick) :
    ∀ m : Machine, Armed m t0 → (∀ tk ∈ held, tk.key = HIGH) →
      (∃ tk ∈ held, t0 + 3000 < tk.now ∧ tk.now < t0 + 4294967296) →
      noSessionTimeout E m (held ++ [rel]) →
      (runLoop E m (held ++ [rel])).count 2 = 1 ∧ (1 : Int) ∉ runLoop E m (held ++ [rel]) := by
  induction held with
  | nil =>
    intro m _ _ hex
    obtain ⟨tk, htk, _⟩ := hex
    cases htk
  | cons tk tl ih =>
    intro m hA hh hex hno
    have hk : tk.key = HIGH := hh tk (List.mem_cons_self _ _)
    have hstep := armed_tick E m t0 tk hA hk hno.1
    rw [List.cons_append, runLoop_cons]
    by_cases hfire : longPressLength < ulongSub (millis tk.now) (millis t0)
    · obtain ⟨hc, hD⟩ := hstep.1 hfire
      have hrest := disarmed_run E tl rel _ hD (fun t ht => hh t (List.mem_cons_of_mem _ ht)) hno.2
      have h2 : (2 : Int) ∉ runLoop E (loop E m tk).machine (tl ++ [rel]) := by
        intro hmem
        have h3 := hrest 2 hmem
        omega
      rw [hc]
      constructor
      · rw [List.count_cons_self, List.count_eq_zero_of_not_mem h2]
      · intro hmem
        rcases List.mem_cons.1 hmem with h | h
        · omega
        · have h3 := hrest 1 h
          omega
    · obtain ⟨hc, hA'⟩ := hstep.2 hfire
      have hex' : ∃ t ∈ tl, t0 + 3000 < t.now ∧ t.now < t0 + 4294967296 := by
        obtain ⟨w, hw, hw1, hw2⟩ := hex
        rcases List.mem_cons.1 hw with h | h
        · exfalso
          apply hfire
          subst h
          have h3 := ulongSub_millis t0 (w.now - t0) (by omega)
          rw [show t0 + (w.now - t0) = w.now by omega] at h3
          rw [h3]
          unfold longPressLength
          omega
        · exact ⟨w, h, hw1, hw2⟩
      obtain ⟨ih1, ih2⟩ := ih _ hA' (fun t ht => hh t (List.mem_cons_of_mem _ ht)) hex' hno.2
      rw [hc]
      constructor
      · rw [List.count_cons_of_ne (by decide), ih1]
      · intro hmem
        rcases List.mem_cons.1 hmem with h | h
        · omega
        · exact ih2 h

theorem armed_short_run (E : Nat) (t0 : Nat) (held : List Tick) (rel : Tick) :
    ∀ m : Machine, Armed m t0 →
      (∀ tk ∈ held, tk.key = HIGH ∧ t0 ≤ tk.now ∧ tk.now ≤ t0 + 2999) →
      rel.key = LOW →
      noSessionTimeout E m (held ++ [rel]) →
      runLoop E m (held ++ [rel]) = List.replicate held.length (-1) ++ [1] := by
  induction held with
  | nil =>
    intro m hA _ hr hno
    simp only [List.nil_append, runLoop, List.length_nil, List.replicate_zero]
    rw [armed_release E m t0 rel hA hr hno.1]
  | cons tk tl ih =>
    intro m hA hh hr hno
    obtain ⟨hk, hlo, hhi⟩ := hh tk (List.mem_cons_self _ _)
    have hnot : ¬ longPressLength < ulongSub (millis tk.now) (millis t0) := by
      have h3 := ulongSub_millis t0 (tk.now - t0) (by omega)
      rw [show t0 + (tk.now - t0) = tk.now by omega] at h3
      rw [h3]
      unfold longPressLength
      omega
    obtain ⟨hc, hA'⟩ := (armed_tick E m t0 tk hA hk hno.1).2 hnot
    rw [List.cons_append, runLoop_cons, List.length_cons, List.replicate_succ, List.cons_append]
    rw [hc, ih _ hA' (fun t ht => hh t (List.mem_cons_of_mem _ ht)) hr hno.2]

/-- C8 (as stated, fails): with no session timeout, a press seen at time 1000
and still held at the tick of time 4000 = 1000 + 3000, then seen released at the
next tick, emits no long press and emits the short press at the release: line
169 asks for more than 3000 ms. The same happens when the only later tick with
the key held comes `2^32 + 5` ms after the press, where the 32-bit difference
of line 169 is 5. -/
theorem long_press_missed_at_3000 :
    (noSessionTimeout 64 (idleMachine 0) boundaryPress
      ∧ runLoop 64 (idleMachine 0) boundaryPress = [-1, -1, 1])
    ∧ (noSessionTimeout 64 (idleMachine 0) wrappedPress
      ∧ runLoop 64 (idleMachine 0) wrappedPress = [-1, -1, 1]) := by
  decide

/-- C8 (amended): in every run of `loop()` with no session timeout in which the
stable key goes from released to pressed at a tick of time `t0` and is still
pressed at a tick whose time is later than `t0 + 3000` ms (and less than `2^32`
ms after `t0`), exactly one tick from the press tick up to and including the
tick after the last held one (the release tick) emits command 2, and none of
them emits command 1. -/
theorem long_press_exactly_once (E : Nat) (m : Machine) (press : Tick) (held : List Tick)
    (rel : Tick) (hm : m.lastKeyState = LOW) (hp : press.key = HIGH)
    (hh : ∀ tk ∈ held, tk.key = HIGH)
    (hlong : ∃ tk ∈ held, press.now + 3000 < tk.now ∧ tk.now < press.now + 4294967296)
    (hno : noSessionTimeout E m (press :: (held ++ [rel]))) :
    (runLoop E m (press :: (held ++ [rel]))).count 2 = 1
    ∧ (1 : Int) ∉ runLoop E m (press :: (held ++ [rel])) := by
  obtain ⟨hc, hA⟩ := press_tick E m press hm hp hno.1
  obtain ⟨h1, h2⟩ := armed_long_run E press.now held rel _ hA hh hlong hno.2
  rw [runLoop_cons, hc]
  constructor
  · rw [List.count_cons_of_ne (by decide), h1]
  · intro hmem
    rcases List.mem_cons.1 hmem with h | h
    · omega
    · exact h2 h

/-- C8 (amended) at a press seen at time 1000, held at time 4001 and released
at time 4002. -/
theorem long_press_exactly_once_witness :
    (runLoop 64 (idleMachine 0) longPress).count 2 = 1
    ∧ (1 : Int) ∉ runLoop 64 (idleMachine 0) longPress :=
  long_press_exactly_once 64 (idleMachine 0) ⟨HIGH, 1000, pressWake 4001⟩
    [⟨HIGH, 4001, pressWake 4001⟩] ⟨LOW, 4002, pressWake 4001⟩ rfl rfl
    (by simp) ⟨_, List.mem_singleton_self _, by decide, by decide⟩ (by decide)

/-- C9 (as stated, fails): a press seen at time 899900 and seen released 150 ms
later, at a tick with no session timeout, emits no short press when the session
timeout falls on a tick in between: that tick emits command 2 and clears the
pending press. -/
theorem short_press_lost_to_timeout :
    runLoop 64 (idleMachine 0) pressOverTimeout = [-1, 2, -1]
    ∧ ¬ sessionExpired
        (loop 64 (loop 64 (idleMachine 0) ⟨HIGH, 899900, pressWake 900001⟩).machine
          ⟨HIGH, 900001, pressWake 900001⟩).machine 900050
    ∧ 900050 - 899900 ≤ 2999 := by
  decide

/-- C9 (amended): in every run of `loop()` in which the stable key goes from
released to pressed at a tick of time `t0` and is seen released at a later tick
of time `t` with `t - t0 <= 2999` ms, with no session timeout at any tick from
the press tick to the release tick, the release tick emits command 1 and every
earlier tick of the press emits no command. -/
theorem short_press_on_release (E : Nat) (m : Machine) (press : Tick) (held : List Tick)
    (rel : Tick) (hm : m.lastKeyState = LOW) (hp : press.key = HIGH)
    (hh : ∀ tk ∈ held, tk.key = HIGH ∧ press.now ≤ tk.now ∧ tk.now ≤ rel.now)
    (hr : rel.key = LOW) (ht : rel.now ≤ press.now + 2999)
    (hno : noSessionTimeout E m (press :: (held ++ [rel]))) :
    runLoop E m (press :: (held ++ [rel]))
      = -1 :: (List.replicate held.length (-1) ++ [1]) := by
  obtain ⟨hc, hA⟩ := press_tick E m press hm hp hno.1
  rw [runLoop_cons, hc, armed_short_run E press.now held rel _ hA
    (fun t h => ⟨(hh t h).1, (hh t h).2.1, by have h3 := (hh t h).2.2; omega⟩) hr hno.2]

/-- C9 (amended) at a press seen at time 1000, held at time 2000 and released
at time 3999, 2999 ms after the press. -/
theorem short_press_on_release_witness :
    runLoop 64 (idleMachine 0) shortPress = [-1, -1, 1] :=
  short_press_on_release 64 (idleMachine 0) ⟨HIGH, 1000, pressWake 0⟩
    [⟨HIGH, 2000, pressWake 0⟩] ⟨LOW, 3999, pressWake 0⟩ rfl rfl
    (by simp [HIGH]) rfl (by decide) (by decide)

/-! ## Session timeout -/

/-- C10: at a tick where a pending press is released and the session has run
for more than 900000 ms, `loop()` emits command 2 and makes exactly the calls of
`goSleep()`; `state` keeps its value, the pending-press flag is cleared, every
`setState` call of the tick has argument `S_ALL_OFF` or the unchanged state, so
none has the incremented state; the same tick with a fresh session timer would
have emitted the short press and incremented `state`. Every tick of `loop()` emits at
most one command: none and no call, or command 1 and the one `setState` call of
the incremented state, or command 2 and the calls of `goSleep()`. -/
theorem session_timeout_precedence (E : Nat) (m : Machine) (tk : Tick)
    (hu : m.unprocessed = true) (hk : tk.key = LOW) (hx : sessionExpired m tk.now) :
    ((loop E m tk).cmd = 2
      ∧ (loop E m tk).calls = (goSleep E m tk.sleep).calls
      ∧ (loop E m tk).machine.state = m.state
      ∧ (loop E m tk).machine.unprocessed = false
      ∧ (∀ s, Call.setState s ∈ (loop E m tk).calls → s = S_ALL_OFF ∨ s = m.state)
      ∧ (m.state < 4 → Call.setState ((m.state + 1) % 4) ∉ (loop E m tk).calls)
      ∧ (loop E { m with poweredOn := millis tk.now } tk).cmd = 1
      ∧ (loop E { m with poweredOn := millis tk.now } tk).machine.state = (m.state + 1) % 4)
    ∧ ∀ (m' : Machine) (tk' : Tick),
        ((loop E m' tk').cmd = -1 ∧ (loop E m' tk').calls = [])
        ∨ ((loop E m' tk').cmd = 1
            ∧ (loop E m' tk').calls = [Call.setState ((m'.state + 1) % 4)])
        ∨ ((loop E m' tk').cmd = 2
            ∧ (loop E m' tk').calls = (goSleep E m' tk'.sleep).calls) := by
  unfold sessionExpired at hx
  have hc : (classify m tk.key tk.now).2 = 2 := by
    simp [classify, hk, HIGH, LOW, hx]
  have hl : loop E m tk
      = { machine := (goSleep E (classify m tk.key tk.now).1 tk.sleep).machine, cmd := 2,
          calls := (goSleep E m tk.sleep).calls } := by
    unfold loop
    simp only [hc]
    rfl
  have hcalls : ∀ s, Call.setState s ∈ (goSleep E m tk.sleep).calls →
      s = S_ALL_OFF ∨ s = m.state := by
    intro s hs
    unfold goSleep at hs
    simp only [List.mem_append, List.mem_cons, List.mem_singleton] at hs
    split_ifs at hs <;> simp at hs <;> tauto
  have h0 : ulongSub (millis tk.now) (millis tk.now) = 0 := by
    have h := ulongSub_millis tk.now 0 (by norm_num)
    simpa using h
  have hc1 : (classify { m with poweredOn := millis tk.now } tk.key tk.now).2 = 1 := by
    simp [classify, hu, hk, HIGH, LOW, h0]
  refine ⟨⟨?_, ?_, ?_, ?_, ?_, ?_, ?_, ?_⟩, ?_⟩
  · rw [hl]
  · rw [hl]
  · rw [hl]; rfl
  · rw [hl]
    show (classify m tk.key tk.now).1.unprocessed = false
    simp [classify, hk, HIGH, LOW, hx]
  · rw [hl]; exact hcalls
  · intro h4 hmem
    rw [hl] at hmem
    rcases hcalls _ hmem with h | h
    · unfold S_ALL_OFF at h; omega
    · omega
  · rw [loop_cmd]; exact hc1
  · unfold loop
    simp only [hc1]
    rfl
  · intro m' tk'
    unfold loop
    dsimp only
    split_ifs with h1 h2
    · right; left; exact ⟨h1, rfl⟩
    · right; right; exact ⟨h2, rfl⟩
    · left
      refine ⟨?_, rfl⟩
      have h3 : (classify m' tk'.key tk'.now).2 = -1 ∨ (classify m' tk'.key tk'.now).2 = 1
          ∨ (classify m' tk'.key tk'.now).2 = 2 := by
        unfold classify
        dsimp only
        split_ifs <;> simp
      rcases h3 with h | h | h
      · exact h
      · exact absurd h h1
      · exact absurd h h2

/-- C10 at a machine in state 1 with a press pending since time 900000 and the
session started at time 0, at the tick of time 900001 that sees the key
released: the tick emits command 2, `state` stays 1 and the pending press is
cleared. -/
theorem session_timeout_precedence_witness :
    (loop 64 (armedMachine 1 900000) ⟨LOW, 900001, pressWake 900001⟩).cmd = 2
    ∧ (loop 64 (armedMachine 1 900000) ⟨LOW, 900001, pressWake 900001⟩).machine.state = 1
    ∧ (loop 64 (armedMachine 1 900000) ⟨LOW, 900001, pressWake 900001⟩).machine.unprocessed
        = false :=
  have h := (session_timeout_precedence 64 (armedMachine 1 900000)
    ⟨LOW, 900001, pressWake 900001⟩ rfl rfl (by decide)).1
  ⟨h.1, h.2.2.1, h.2.2.2.1⟩

/-! ## Output mapping -/

/-- `setState` writes all three pins: its result does not depend on the
outputs before the call. -/
theorem setState_independent (o o' : Outputs) (state : Nat) :
    setState o state = setState o' state := by
  unfold setState setStateWrites
  split_ifs <;> rfl

theorem setState_eq_specOutputs (o : Outputs) (s : Nat) (hs : s < 4) :
    setState o s = specOutputs s := by
  interval_cases s <;> rfl

/-- C11: for every `s` in {0,1,2,3} and whatever the outputs were before,
after `setState(s)` the `HEATER` output is bit 1 of `s`, `RIGHTER` is bit 0 of `s`
and `LEFTER` is the negation of bit 0, so exactly one direction output is high;
after `setState(0x07)` all three outputs are low; the result of `setState` does
not depend on the outputs before the call. -/
theorem setState_output_mapping (o : Outputs) (s : Nat) (hs : s < 4) :
    (setState o s).heater = s.testBit 1
    ∧ (setState o s).righter = s.testBit 0
    ∧ (setState o s).lefter = !s.testBit 0
    ∧ ((setState o s).lefter = HIGH ∧ (setState o s).righter = LOW
        ∨ (setState o s).lefter = LOW ∧ (setState o s).righter = HIGH)
    ∧ setState o S_ALL_OFF = allLow
    ∧ ∀ (o' : Outputs) (t : Nat), setState o' t = setState o t := by
  refine ⟨?_, ?_, ?_, ?_, rfl, fun o' t => setState_independent o' o t⟩ <;>
    interval_cases s <;> simp [setState, setStateWrites, applyWrites, digitalWrite, S_ALL_OFF,
      HEATING, DIRECTION, HIGH, LOW] <;> decide

/-- C11 at state 2: heater high, `LEFTER` high, `RIGHTER` low. -/
theorem setState_output_mapping_witness :
    (setState allLow 2).heater = HIGH ∧ (setState allLow 2).righter = LOW
    ∧ (setState allLow 2).lefter = HIGH :=
  have h := setState_output_mapping allLow 2 (by decide)
  ⟨h.1, h.2.1, h.2.2.1⟩

/-! ## State cycling and state range -/

theorem classify_state (m : Machine) (key : Bool) (now : Nat) :
    (classify m key now).1.state = m.state := rfl

theorem classify_outputs (m : Machine) (key : Bool) (now : Nat) :
    (classify m key now).1.outputs = m.outputs := rfl

theorem classify_store (m : Machine) (key : Bool) (now : Nat) :
    (classify m key now).1.store = m.store := rfl

theorem loop_short (E : Nat) (m : Machine) (tk : Tick) (h : (loop E m tk).cmd = 1) :
    (loop E m tk).machine.state = (m.state + 1) % 4
    ∧ (loop E m tk).machine.outputs = setState m.outputs ((m.state + 1) % 4)
    ∧ (loop E m tk).calls = [Call.setState ((m.state + 1) % 4)] := by
  rw [loop_cmd] at h
  unfold loop
  simp only [h]
  exact ⟨rfl, rfl, rfl⟩

theorem loop_not_short (E : Nat) (m : Machine) (tk : Tick) (h : (loop E m tk).cmd ≠ 1) :
    (loop E m tk).machine.state = m.state := by
  rw [loop_cmd] at h
  unfold loop
  dsimp only
  split_ifs with a b
  · exact absurd a h
  · rfl
  · rfl

theorem loop_sleep (E : Nat) (m : Machine) (tk : Tick) (h : (loop E m tk).cmd = 2) :
    (loop E m tk).machine.outputs = setState m.outputs m.state
    ∧ (loop E m tk).calls = (goSleep E m tk.sleep).calls
    ∧ (loop E m tk).machine.store = saveState E m.store m.state := by
  rw [loop_cmd] at h
  unfold loop
  simp only [h]
  refine ⟨?_, rfl, rfl⟩
  exact setState_independent _ _ _

theorem loop_idle (E : Nat) (m : Machine) (tk : Tick)
    (h1 : (loop E m tk).cmd ≠ 1) (h2 : (loop E m tk).cmd ≠ 2) :
    (loop E m tk).machine.outputs = m.outputs ∧ (loop E m tk).calls = []
    ∧ (loop E m tk).machine.store = m.store := by
  rw [loop_cmd] at h1 h2
  unfold loop
  simp only [h1, h2]
  exact ⟨rfl, rfl, rfl⟩

theorem shortPresses_eq (E : Nat) (ticks : List Tick) :
    ∀ m : Machine, shortPresses E m ticks
      = (List.range (shortPresses E m ticks).length).map
          (fun i => ((m.state + i + 1) % 4, setState allLow ((m.state + i + 1) % 4),
            [Call.setState ((m.state + i + 1) % 4)])) := by
  induction ticks with
  | nil => intro m; rfl
  | cons tk rest ih =>
    intro m
    by_cases h : (loop E m tk).cmd = 1
    · obtain ⟨hs, ho, hc⟩ := loop_short E m tk h
      have hrec := ih (loop E m tk).machine
      have hunf : shortPresses E m (tk :: rest)
          = ((loop E m tk).machine.state, (loop E m tk).machine.outputs, (loop E m tk).calls)
            :: shortPresses E (loop E m tk).machine rest := by
        simp [shortPresses, h]
      rw [hunf, List.length_cons, List.range_succ_eq_map, List.map_cons, List.map_map]
      congr 1
      · rw [hs, ho, hc, setState_independent m.outputs allLow]
      · rw [hrec, List.length_map, List.length_range]
        apply List.map_congr_left
        intro i _
        simp only [Function.comp, hs]
        have e1 : ((m.state + 1) % 4 + i + 1) % 4 = (m.state + (i + 1) + 1) % 4 := by omega
        rw [e1]
    · have hs := loop_not_short E m tk h
      have hunf : shortPresses E m (tk :: rest)
          = shortPresses E (loop E m tk).machine rest := by
        simp [shortPresses, h]
      rw [hunf, ih (loop E m tk).machine, List.length_map, List.length_range, hs]

/-- C12: a call of `loop()` that emits the short-press command replaces
`state` by `(state + 1) mod 4`, makes the one call `setState` of the new state
and leaves the outputs of that state; in every run the `i`-th short press
(counted from 0) leaves state `(state + i + 1) mod 4` with its outputs and its
one `setState` call, so four short presses from state 0 visit 1, 2, 3, 0 in that
order, each with the heater and direction outputs of that state. -/
theorem short_press_cycles_state (E : Nat) (m : Machine) (ticks : List Tick) :
    (∀ tk : Tick, (loop E m tk).cmd = 1 →
        (loop E m tk).machine.state = (m.state + 1) % 4
        ∧ (loop E m tk).calls = [Call.setState ((m.state + 1) % 4)]
        ∧ (loop E m tk).machine.outputs = specOutputs ((m.state + 1) % 4))
    ∧ shortPresses E m ticks
        = (List.range (shortPresses E m ticks).length).map
            (fun i => ((m.state + i + 1) % 4, specOutputs ((m.state + i + 1) % 4),
              [Call.setState ((m.state + i + 1) % 4)]))
    ∧ (m.state = 0 → (shortPresses E m ticks).length = 4 →
        shortPresses E m ticks
          = [(1, ⟨LOW, HIGH, LOW⟩, [Call.setState 1]), (2, ⟨HIGH, LOW, HIGH⟩, [Call.setState 2]),
             (3, ⟨LOW, HIGH, HIGH⟩, [Call.setState 3]), (0, ⟨HIGH, LOW, LOW⟩, [Call.setState 0])]) := by
  have hmap : ∀ s : Nat, setState allLow (s % 4) = specOutputs (s % 4) :=
    fun s => setState_eq_specOutputs allLow (s % 4) (Nat.mod_lt _ (by decide))
  have hall : shortPresses E m ticks
        = (List.range (shortPresses E m ticks).length).map
            (fun i => ((m.state + i + 1) % 4, specOutputs ((m.state + i + 1) % 4),
              [Call.setState ((m.state + i + 1) % 4)])) := by
    have h := shortPresses_eq E ticks m
    simp only [hmap] at h
    exact h
  refine ⟨?_, hall, ?_⟩
  · intro tk h
    obtain ⟨hs, ho, hc⟩ := loop_short E m tk h
    refine ⟨hs, hc, ?_⟩
    rw [ho, setState_independent m.outputs allLow, hmap]
  · intro h0 h4
    rw [hall, h4, h0]
    rfl

/-- C12 at four press and release pairs from state 0. -/
theorem short_press_cycles_state_witness :
    shortPresses 64 (idleMachine 0) fourPresses
      = [(1, ⟨LOW, HIGH, LOW⟩, [Call.setState 1]), (2, ⟨HIGH, LOW, HIGH⟩, [Call.setState 2]),
         (3, ⟨LOW, HIGH, HIGH⟩, [Call.setState 3]), (0, ⟨HIGH, LOW, LOW⟩, [Call.setState 0])] :=
  (short_press_cycles_state 64 (idleMachine 0) fourPresses).2.2 rfl (by decide)

theorem and_three_lt (v : Nat) : 3 &&& v < 4 :=
  Nat.lt_succ_of_le Nat.and_le_left

theorem restoreState_lt (E : Nat) (e : Eeprom) : (restoreState E e).2 < 4 :=
  and_three_lt _

theorem saveStateWrites_value (E : Nat) (s : Store) (v : Nat) :
    ∀ w ∈ saveStateWrites E s v, w.1 % 2 = 1 → w.2 < 4 := by
  intro w hw hodd
  unfold saveStateWrites at hw
  split_ifs at hw
  · simp only [List.mem_cons, List.mem_singleton, List.not_mem_nil, or_false] at hw
    rcases hw with h | h
    · subst h
      simp only [shiftLeft_one] at hodd
      omega
    · subst h
      exact and_three_lt v
  · cases hw

theorem goSleep_saveState_calls (E : Nat) (m : Machine) (env : SleepEnv) (v : Nat)
    (h : Call.saveState v ∈ (goSleep E m env).calls) : v = m.state := by
  unfold goSleep at h
  simp only [List.mem_append, List.mem_cons, List.mem_singleton] at h
  split_ifs at h <;> simp at h <;> exact h

theorem loop_state_lt (E : Nat) (m : Machine) (tk : Tick) (h : m.state < 4) :
    (loop E m tk).machine.state < 4 := by
  by_cases hc : (loop E m tk).cmd = 1
  · rw [(loop_short E m tk hc).1]
    exact Nat.mod_lt _ (by decide)
  · rw [loop_not_short E m tk hc]
    exact h

theorem loop_saveState_calls (E : Nat) (m : Machine) (tk : Tick) (v : Nat)
    (h : Call.saveState v ∈ (loop E m tk).calls) : v = m.state := by
  by_cases h1 : (loop E m tk).cmd = 1
  · rw [(loop_short E m tk h1).2.2] at h
    simp at h
  · by_cases h2 : (loop E m tk).cmd = 2
    · rw [(loop_sleep E m tk h2).2.1] at h
      exact goSleep_saveState_calls E m tk.sleep v h
    · rw [(loop_idle E m tk h1 h2).2.1] at h
      cases h

theorem run_invariant (E : Nat) (ticks : List Tick) :
    ∀ m : Machine, m.state < 4 →
      (∀ m' ∈ runMachines E m ticks, m'.state < 4)
      ∧ (∀ v, Call.saveState v ∈ runCalls E m ticks → v < 4)
      ∧ (∀ w ∈ runWrites E m ticks, w.1 % 2 = 1 → w.2 < 4) := by
  induction ticks with
  | nil =>
    intro m hm
    refine ⟨?_, ?_, ?_⟩
    · intro m' h
      simp only [runMachines, List.mem_singleton] at h
      rw [h]; exact hm
    · intro v h; cases h
    · intro w h; cases h
  | cons tk rest ih =>
    intro m hm
    obtain ⟨i1, i2, i3⟩ := ih (loop E m tk).machine (loop_state_lt E m tk hm)
    refine ⟨?_, ?_, ?_⟩
    · intro m' h
      simp only [runMachines, List.mem_cons] at h
      rcases h with h | h
      · rw [h]; exact hm
      · exact i1 m' h
    · intro v h
      simp only [runCalls, List.mem_append] at h
      rcases h with h | h
      · rw [loop_saveState_calls E m tk v h]; exact hm
      · exact i2 v h
    · intro w h hodd
      simp only [runWrites, List.mem_append] at h
      rcases h with h | h
      · unfold loopWrites goSleepWrites at h
        split_ifs at h
        · exact saveStateWrites_value E _ _ w h hodd
        · cases h
      · exact i3 w h hodd

theorem saveState_eeprom_eq_writes (E : Nat) (s : Store) (v : Nat) :
    (saveState E s v).eeprom = applyEepromWrites s.eeprom (saveStateWrites E s v) := by
  unfold saveState saveStateWrites applyEepromWrites
  split_ifs <;> rfl

theorem applyEepromWrites_append (e : Eeprom) (a b : List (Nat × Nat)) :
    applyEepromWrites e (a ++ b) = applyEepromWrites (applyEepromWrites e a) b := by
  unfold applyEepromWrites
  rw [List.foldl_append]

theorem loop_eeprom_eq_writes (E : Nat) (m : Machine) (tk : Tick) :
    (loop E m tk).machine.store.eeprom
      = applyEepromWrites m.store.eeprom (loopWrites E m tk) := by
  unfold loopWrites goSleepWrites
  by_cases h1 : (loop E m tk).cmd = 1
  · have hs : (loop E m tk).machine.store = m.store := by
      rw [loop_cmd] at h1
      unfold loop
      simp only [h1]
      rfl
    rw [loop_cmd] at h1
    rw [hs, if_neg (by rw [h1]; decide)]
    rfl
  · by_cases h2 : (loop E m tk).cmd = 2
    · rw [(loop_sleep E m tk h2).2.2]
      rw [loop_cmd] at h2
      rw [if_pos h2]
      exact saveState_eeprom_eq_writes E m.store m.state
    · rw [(loop_idle E m tk h1 h2).2.2]
      rw [loop_cmd] at h2
      rw [if_neg h2]
      rfl

/-- The EEPROM after a run of `loop()` calls is the EEPROM before it with the
writes of `runWrites` applied in order. -/
theorem run_eeprom_eq_writes (E : Nat) (ticks : List Tick) :
    ∀ m : Machine, (runFinal E m ticks).store.eeprom
      = applyEepromWrites m.store.eeprom (runWrites E m ticks) := by
  induction ticks with
  | nil => intro m; rfl
  | cons tk rest ih =>
    intro m
    rw [runFinal, ih, runWrites, applyEepromWrites_append, loop_eeprom_eq_writes]

theorem setup_eeprom_eq_writes (E : Nat) (e : Eeprom) (env : SleepEnv) (key0 : Bool) :
    (setup E e env key0).machine.store.eeprom = applyEepromWrites e (setupWrites E e) :=
  saveState_eeprom_eq_writes E (restoreState E e).1 (restoreState E e).2

/-- C13: for every EEPROM content at boot and every run of `loop()` calls
after `setup()` (sleeps included), the value `restoreState()` returns and
`state` before and after every call of `loop()` are in {0,1,2,3}; every argument
passed to `saveState` is in {0,1,2,3}, so never the sentinel 0x07; every value
byte (odd address) that is written is in {0,1,2,3}, so never 0x07; and the
writes listed are all the writes: the EEPROM after the run is the EEPROM at
boot with them applied in order. -/
theorem state_range_invariant (E : Nat) (e : Eeprom) (env : SleepEnv) (key0 : Bool)
    (ticks : List Tick) :
    (restoreState E e).2 < 4
    ∧ (∀ m ∈ runMachines E (setup E e env key0).machine ticks, m.state < 4)
    ∧ (∀ v, Call.saveState v ∈ (setup E e env key0).calls
              ++ runCalls E (setup E e env key0).machine ticks → v < 4 ∧ v ≠ S_ALL_OFF)
    ∧ (∀ w ∈ setupWrites E e ++ runWrites E (setup E e env key0).machine ticks,
        w.1 % 2 = 1 → w.2 < 4 ∧ w.2 ≠ S_ALL_OFF)
    ∧ (runFinal E (setup E e env key0).machine ticks).store.eeprom
        = applyEepromWrites e
            (setupWrites E e ++ runWrites E (setup E e env key0).machine ticks) := by
  have h0 : (setup E e env key0).machine.state < 4 := restoreState_lt E e
  obtain ⟨i1, i2, i3⟩ := run_invariant E ticks (setup E e env key0).machine h0
  have hne : ∀ v : Nat, v < 4 → v < 4 ∧ v ≠ S_ALL_OFF := by
    intro v hv
    refine ⟨hv, ?_⟩
    unfold S_ALL_OFF
    omega
  refine ⟨restoreState_lt E e, i1, ?_, ?_, ?_⟩
  · intro v h
    apply hne
    rcases List.mem_append.1 h with h | h
    · have hv := goSleep_saveState_calls E _ env v h
      rw [hv]
      exact restoreState_lt E e
    · exact i2 v h
  · intro w h hodd
    apply hne
    rcases List.mem_append.1 h with h | h
    · exact saveStateWrites_value E _ _ w h hodd
    · exact i3 w h hodd
  · rw [run_eeprom_eq_writes, applyEepromWrites_append, setup_eeprom_eq_writes]

/-- C13 at a boot on factory-erased memory followed by a long press: the
state after the run is 3, the two saves were passed 3, and the value bytes
written are 3. -/
theorem state_range_invariant_witness :
    (runFinal 64 (setup 64 factoryErased (pressWake 0) LOW).machine longPress).state = 3
    ∧ (∀ v, Call.saveState v ∈ (setup 64 factoryErased (pressWake 0) LOW).calls
          ++ runCalls 64 (setup 64 factoryErased (pressWake 0) LOW).machine longPress →
        v < 4 ∧ v ≠ S_ALL_OFF)
    ∧ setupWrites 64 factoryErased
        ++ runWrites 64 (setup 64 factoryErased (pressWake 0) LOW).machine longPress
        = [(2, 0), (3, 3)] :=
  ⟨by decide,
   (state_range_invariant 64 factoryErased (pressWake 0) LOW longPress).2.2.1,
   by decide⟩

/-! ## Repeated saves -/

/-- After `saveState(v)` with `v` in {0,1,2,3} the value byte of the current
slot is `v`. -/
theorem saveState_value_byte (E : Nat) (s : Store) (v : Nat) (hv : v < 4) :
    eepromRead (saveState E s v).eeprom (((saveState E s v).eepromIndex <<< 1) + 1) = v := by
  unfold saveState
  split_ifs with h
  · simp only [eepromRead, eepromWrite, if_true, and_three_of_lt v hv]
    omega
  · exact not_not.1 h

theorem saveState_of_byte_eq (E : Nat) (t : Store) (w : Nat)
    (h : eepromRead t.eeprom ((t.eepromIndex <<< 1) + 1) = w) : saveState E t w = t := by
  simp [saveState, h]

/-- C15: for every EEPROM content, every cursor and every `v` in {0,1,2,3},
a `saveState(v)` that directly follows a `saveState(v)` performs no
`EEPROM.write` and leaves the store, cursor included, as the first call left it;
the writes of the two calls together are those of the first, so at most one
slot is written. -/
theorem saveState_twice (E : Nat) (s : Store) (v : Nat) (hv : v < 4) :
    saveState E (saveState E s v) v = saveState E s v
    ∧ saveStateWrites E (saveState E s v) v = []
    ∧ saveAllWrites E s [v, v] = saveStateWrites E s v
    ∧ (slotsWritten E s [v, v]).length ≤ 1 := by
  have hb := saveState_value_byte E s v hv
  have h1 : saveStateWrites E (saveState E s v) v = [] := by
    simp [saveStateWrites, hb]
  have h2 : saveState E (saveState E s v) v = saveState E s v :=
    saveState_of_byte_eq E _ v hb
  refine ⟨h2, h1, ?_, ?_⟩
  · simp [saveAllWrites, h1]
  · simp only [slotsWritten, h1, if_true]
    split_ifs <;> simp

/-- C15 at two `saveState(2)` on factory-erased memory: the pair writes the two
bytes of slot 1 once. -/
theorem saveState_twice_witness :
    saveStateWrites 64 (saveState 64 (factoryStore 64) 2) 2 = []
    ∧ saveAllWrites 64 (factoryStore 64) [2, 2] = [(2, 0), (3, 2)] :=
  have h := saveState_twice 64 (factoryStore 64) 2 (by decide)
  ⟨h.2.1, h.2.2.1.trans (by decide)⟩

/-! ## Bounds of the EEPROM accesses -/

theorem restoreLoop_index_lt (E : Nat) (e : Eeprom) :
    ∀ fuel i idx pri, idx < E >>> 1 → (restoreLoop E e fuel i idx pri).1 < E >>> 1 := by
  intro fuel
  induction fuel with
  | zero => intro i idx pri h; exact h
  | succ n ih =>
    intro i idx pri h
    rw [restoreLoop]
    split
    · dsimp only
      split
      · exact h
      · rename_i hi _
        exact ih (i + 1) i _ hi
    · exact h

theorem restoreState_index_lt (E : Nat) (e : Eeprom) (hE : 2 ≤ E) :
    (restoreState E e).1.eepromIndex < E / 2 := by
  have h := restoreLoop_index_lt E e (E >>> 1) 1 0 (eepromRead e 0)
    (by rw [shiftRight_one]; omega)
  rw [shiftRight_one] at h
  exact h

theorem nextIndex_lt (E i : Nat) (hE : 2 ≤ E) : nextIndex E i < E / 2 := by
  unfold nextIndex
  rw [shiftRight_one]
  split_ifs <;> omega

theorem nextPriority_le (E p : Nat) : nextPriority E p ≤ E / 2 - 2 := by
  unfold nextPriority
  rw [shiftRight_one]
  split_ifs <;> omega

theorem saveState_index_lt (E : Nat) (s : Store) (v : Nat) (hE : 2 ≤ E)
    (h : s.eepromIndex < E / 2) : (saveState E s v).eepromIndex < E / 2 := by
  unfold saveState
  split_ifs
  · exact nextIndex_lt E _ hE
  · exact h

theorem saveStateWrites_bounds (E : Nat) (s : Store) (v : Nat) (hE : 2 ≤ E) :
    ∀ w ∈ saveStateWrites E s v, w.1 < E ∧ (w.1 % 2 = 0 → w.2 ≤ E / 2 - 2) := by
  intro w hw
  have hi := nextIndex_lt E s.eepromIndex hE
  unfold saveStateWrites at hw
  split_ifs at hw
  · simp only [List.mem_cons, List.mem_singleton, List.not_mem_nil, or_false] at hw
    rcases hw with h | h
    · subst h
      simp only [shiftLeft_one]
      exact ⟨by omega, fun _ => nextPriority_le E _⟩
    · subst h
      simp only [shiftLeft_one]
      exact ⟨by omega, fun h2 => by omega⟩
  · cases hw

theorem saveAll_cons (E : Nat) (s : Store) (v : Nat) (vs : List Nat) :
    saveAll E s (v :: vs) = saveAll E (saveState E s v) vs := rfl

theorem saveAll_bounds (E : Nat) (hE : 2 ≤ E) (vs : List Nat) :
    ∀ s : Store, s.eepromIndex < E / 2 →
      (saveAll E s vs).eepromIndex < E / 2
      ∧ ∀ w ∈ saveAllWrites E s vs, w.1 < E ∧ (w.1 % 2 = 0 → w.2 ≤ E / 2 - 2) := by
  induction vs with
  | nil =>
    intro s h
    exact ⟨h, fun w hw => by cases hw⟩
  | cons v rest ih =>
    intro s h
    obtain ⟨i1, i2⟩ := ih (saveState E s v) (saveState_index_lt E s v hE h)
    rw [saveAll_cons]
    refine ⟨i1, ?_⟩
    intro w hw
    simp only [saveAllWrites, List.mem_append] at hw
    rcases hw with hw | hw
    · exact saveStateWrites_bounds E s v hE w hw
    · exact i2 w hw

/-- The scan of `restoreState` reads no byte at or above `EEPROM_SIZE`. -/
theorem restoreLoop_congr_below (E : Nat) (e1 e2 : Eeprom)
    (h : ∀ a, a < E → e1 a = e2 a) :
    ∀ fuel i idx pri, restoreLoop E e1 fuel i idx pri = restoreLoop E e2 fuel i idx pri := by
  intro fuel
  induction fuel with
  | zero => intro i idx pri; rfl
  | succ n ih =>
    intro i idx pri
    rw [restoreLoop, restoreLoop]
    split
    · rename_i hi
      have hr : eepromRead e1 (i <<< 1) = eepromRead e2 (i <<< 1) := by
        unfold eepromRead
        rw [h (i <<< 1) (by rw [shiftLeft_one]; rw [shiftRight_one] at hi; omega)]
      simp only [hr, ih]
    · rfl

theorem restoreState_congr_below (E : Nat) (e1 e2 : Eeprom) (hE : 2 ≤ E)
    (h : ∀ a, a < E → e1 a = e2 a) :
    (restoreState E e1).1.eepromIndex = (restoreState E e2).1.eepromIndex
    ∧ (restoreState E e1).1.eepromPriority = (restoreState E e2).1.eepromPriority
    ∧ (restoreState E e1).2 = (restoreState E e2).2 := by
  have h0 : eepromRead e1 0 = eepromRead e2 0 := by
    unfold eepromRead
    rw [h 0 (by omega)]
  have hc : restoreCursor E e1 = restoreCursor E e2 := by
    unfold restoreCursor
    rw [restoreLoop_congr_below E e1 e2 h, h0]
  have hi := restoreState_index_lt E e2 hE
  have hv : eepromRead e1 (((restoreCursor E e2).1 <<< 1) + 1)
      = eepromRead e2 (((restoreCursor E e2).1 <<< 1) + 1) := by
    unfold eepromRead
    rw [h _ (by
      have : (restoreCursor E e2).1 < E / 2 := hi
      rw [shiftLeft_one]; omega)]
  refine ⟨?_, ?_, ?_⟩
  · simp only [restoreState, hc]
  · simp only [restoreState, hc]
  · simp only [restoreState, hc, hv]

/-- C18: for an `EEPROM_SIZE` from 4 to 512, every EEPROM content and every run
of `saveState` calls after `restoreState()`, `eepromIndex` stays below
`EEPROM_SIZE / 2`, so the addresses `2 * eepromIndex` and `2 * eepromIndex + 1`
are below `EEPROM_SIZE`; every write goes to an address below `EEPROM_SIZE`;
every priority written (even address) is at most `EEPROM_SIZE / 2 - 2` and
below 256; and `restoreState()` reads no byte at or above `EEPROM_SIZE`: it
gives the same cursor and value on any memory that agrees below `EEPROM_SIZE`. -/
theorem eeprom_access_in_bounds (E : Nat) (e : Eeprom) (vs : List Nat)
    (hE : 4 ≤ E) (hE' : E ≤ 512) :
    (restoreState E e).1.eepromIndex < E / 2
    ∧ (saveAll E (restoreState E e).1 vs).eepromIndex < E / 2
    ∧ 2 * (saveAll E (restoreState E e).1 vs).eepromIndex + 1 < E
    ∧ (∀ w ∈ saveAllWrites E (restoreState E e).1 vs,
        w.1 < E ∧ (w.1 % 2 = 0 → w.2 ≤ E / 2 - 2 ∧ w.2 < 256))
    ∧ ∀ e' : Eeprom, (∀ a, a < E → e' a = e a) →
        (restoreState E e').1.eepromIndex = (restoreState E e).1.eepromIndex
        ∧ (restoreState E e').1.eepromPriority = (restoreState E e).1.eepromPriority
        ∧ (restoreState E e').2 = (restoreState E e).2 := by
  have h0 := restoreState_index_lt E e (by omega)
  obtain ⟨h1, h2⟩ := saveAll_bounds E (by omega) vs (restoreState E e).1 h0
  refine ⟨h0, h1, by omega, ?_, fun e' h => restoreState_congr_below E e' e (by omega) h⟩
  intro w hw
  obtain ⟨a, b⟩ := h2 w hw
  exact ⟨a, fun hev => ⟨b hev, by have := b hev; omega⟩⟩

/-- C18 at a 64-byte factory-erased EEPROM and 40 saves. -/
theorem eeprom_access_in_bounds_witness :
    (saveAll 64 (restoreState 64 factoryErased).1 (cycling 40)).eepromIndex < 64 / 2
    ∧ ∀ w ∈ saveAllWrites 64 (restoreState 64 factoryErased).1 (cycling 40),
        w.1 < 64 ∧ (w.1 % 2 = 0 → w.2 ≤ 64 / 2 - 2 ∧ w.2 < 256) :=
  have h := eeprom_access_in_bounds 64 factoryErased (cycling 40) (by decide) (by decide)
  ⟨h.2.1, h.2.2.2.1⟩

/-! ## Frame of the state -/

theorem goSleep_state (E : Nat) (m : Machine) (env : SleepEnv) :
    (goSleep E m env).machine.state = m.state
    ∧ (goSleep E m env).machine.outputs = setState m.outputs m.state :=
  ⟨rfl, setState_independent _ _ _⟩

/-- C19: a call of `loop()` leaves `state` as it was unless it emits the
short-press command, and then `state` is `(state + 1) mod 4`; `goSleep()`, as
called for a long press or session timeout (command 2) and by `setup()`,
returns with `state` unchanged and with the outputs that `setState(state)`
gives, which for a state in {0,1,2,3} are the heater and direction outputs of
that state. -/
theorem state_changes_on_short_press_only (E : Nat) (m : Machine) (tk : Tick) :
    ((loop E m tk).cmd = 1 → (loop E m tk).machine.state = (m.state + 1) % 4)
    ∧ ((loop E m tk).cmd ≠ 1 → (loop E m tk).machine.state = m.state)
    ∧ ((loop E m tk).cmd = 2 →
        (loop E m tk).machine.outputs = setState m.outputs m.state
        ∧ (m.state < 4 → (loop E m tk).machine.outputs = specOutputs m.state))
    ∧ (∀ env : SleepEnv,
        (goSleep E m env).machine.state = m.state
        ∧ (goSleep E m env).machine.outputs = setState m.outputs m.state
        ∧ (m.state < 4 → (goSleep E m env).machine.outputs = specOutputs m.state))
    ∧ ∀ (e : Eeprom) (env : SleepEnv) (key0 : Bool),
        (setup E e env key0).machine.state = (restoreState E e).2
        ∧ (setup E e env key0).machine.outputs = specOutputs (restoreState E e).2 := by
  refine ⟨fun h => (loop_short E m tk h).1, fun h => loop_not_short E m tk h, ?_, ?_, ?_⟩
  · intro h
    have ho := (loop_sleep E m tk h).1
    exact ⟨ho, fun h4 => by rw [ho, setState_eq_specOutputs _ _ h4]⟩
  · intro env
    have ho := (goSleep_state E m env).2
    exact ⟨rfl, ho, fun h4 => by rw [ho, setState_eq_specOutputs _ _ h4]⟩
  · intro e env key0
    refine ⟨rfl, ?_⟩
    have ho := (goSleep_state E
      { store := (restoreState E e).1, state := (restoreState E e).2, poweredOn := 0,
        outputs := allLow, keyState := key0, lastKeyState := key0, unprocessed := false,
        keyDownTime := 0 } env).2
    exact ho.trans (setState_eq_specOutputs _ _ (restoreState_lt E e))

/-- C19 at a machine in state 1 with a press pending: a release gives state 2,
a held key leaves state 1, and a long press returns from the sleep with the
outputs of state 1. -/
theorem state_changes_on_short_press_only_witness :
    (loop 64 (armedMachine 1 100) ⟨LOW, 200, pressWake 0⟩).machine.state = 2
    ∧ (loop 64 (armedMachine 1 100) ⟨HIGH, 200, pressWake 0⟩).machine.state = 1
    ∧ (loop 64 (armedMachine 1 100) ⟨HIGH, 4000, pressWake 4000⟩).machine.outputs
        = specOutputs 1 :=
  have h1 := state_changes_on_short_press_only 64 (armedMachine 1 100) ⟨LOW, 200, pressWake 0⟩
  have h2 := state_changes_on_short_press_only 64 (armedMachine 1 100) ⟨HIGH, 200, pressWake 0⟩
  have h3 := state_changes_on_short_press_only 64 (armedMachine 1 100)
    ⟨HIGH, 4000, pressWake 4000⟩
  ⟨h1.1 (by decide), h2.2.1 (by decide), (h3.2.2.1 (by decide)).2 (by decide)⟩

/-! ## Clock wrap-around -/

/-- C20: with a timestamp stored as `millis()` at time `t` and the clock read
at time `t + d`, `d < 2^32` ms, the 32-bit difference is `d`, whether or not the
counter wrapped in between. So `readKey` commits the sample exactly when
`d > 50`; the loop of `readKeyBlocking` ends exactly when `d >= 50`; `loop`
emits the long press for a pending press exactly when `d > 3000`, and meets the
session timeout exactly when `d > 900000`. -/
theorem elapsed_time_survives_wrap (t d : Nat) (hd : d < 4294967296) :
    ulongSub (millis (t + d)) (millis t) = d
    ∧ (∀ (r k : Bool),
        (readKey ⟨millis t, r, k⟩ ⟨r, t + d⟩).keyState
          = if debounceDelay < d then (if !r then HIGH else LOW) else k)
    ∧ (∀ (b r x : Bool) (rest : List Poll), debounceDelay ≤ d →
        readKeyBlockingLoop (millis t) b (some r) (⟨x, t + d⟩ :: rest)
          = Blocking.returned (if !r then HIGH else LOW))
    ∧ (∀ (b r : Bool) (rest : List Poll), d < debounceDelay →
        readKeyBlockingLoop (millis t) b (some r) (⟨b, t + d⟩ :: rest)
          = readKeyBlockingLoop (millis t) b (some b) rest)
    ∧ (∀ m : Machine, Armed m t → ¬ sessionExpired m (t + d) →
        ((classify m HIGH (t + d)).2 = 2 ↔ longPressLength < d))
    ∧ (∀ m : Machine,
        sessionExpired { m with poweredOn := millis t } (t + d) ↔ sessionLength < d)
    ∧ (∀ (m : Machine) (key : Bool), sessionLength < d →
        (classify { m with poweredOn := millis t } key (t + d)).2 = 2) := by
  have h := ulongSub_millis t d hd
  refine ⟨h, ?_, ?_, ?_, ?_, ?_, ?_⟩
  · intro r k
    simp [readKey, h]
  · intro b r x rest h50
    have : ¬ d < debounceDelay := by omega
    simp [readKeyBlockingLoop, h, this]
  · intro b r rest h50
    simp [readKeyBlockingLoop, h, h50]
  · intro m hA hno
    obtain ⟨hl, hu, hk⟩ := hA
    unfold sessionExpired at hno
    by_cases hlong : longPressLength < d
    · simp [classify, hl, hu, hk, HIGH, LOW, h, hno, hlong]
    · simp [classify, hl, hu, hk, HIGH, LOW, h, hno, hlong]
  · intro m
    unfold sessionExpired
    simp only [h]
  · intro m key hs
    simp [classify, h, hs]

/-- C20 across the wrap: a timestamp taken 10 ms before the counter wraps and
read 60 ms later, when `millis()` returns 50. -/
theorem elapsed_time_survives_wrap_witness :
    ulongSub (millis (4294967286 + 60)) (millis 4294967286) = 60
    ∧ millis (4294967286 + 60) = 50
    ∧ (readKey ⟨millis 4294967286, LOW, LOW⟩ ⟨LOW, 4294967286 + 60⟩).keyState = HIGH :=
  have h := elapsed_time_survives_wrap 4294967286 60 (by decide)
  ⟨h.1, by decide, (h.2.1 LOW LOW).trans (by decide)⟩

/-! ## Wear leveling -/

theorem nextIndex_eq_mod (E i : Nat) (h : i < E / 2) :
    nextIndex E i = (i + 1) % (E / 2) := by
  unfold nextIndex
  rw [shiftRight_one]
  split_ifs with h1
  · exact (Nat.mod_eq_of_lt h1).symm
  · have h2 : i + 1 = E / 2 := by omega
    rw [h2, Nat.mod_self]

theorem nextPriority_eq_mod (E p : Nat) (hE : 4 ≤ E) (h : p ≤ E / 2 - 2) :
    nextPriority E p = (p + 1) % (E / 2 - 1) := by
  unfold nextPriority
  rw [shiftRight_one]
  split_ifs with h1
  · exact (Nat.mod_eq_of_lt h1).symm
  · have h2 : p + 1 = E / 2 - 1 := by omega
    rw [h2, Nat.mod_self]

theorem range_shift_perm (N a : Nat) :
    ((List.range N).map (fun j => (a + j) % N)).Perm (List.range N) := by
  have hnd : ((List.range N).map (fun j => (a + j) % N)).Nodup := by
    apply List.Nodup.map_on _ (List.nodup_range N)
    intro x hx y hy hxy
    rw [List.mem_range] at hx hy
    have h1 : x ≡ y [MOD N] := Nat.ModEq.add_left_cancel' a hxy
    exact Nat.ModEq.eq_of_lt_of_lt h1 hx hy
  have hsub : (List.range N).map (fun j => (a + j) % N) ⊆ List.range N := by
    intro x hx
    rw [List.mem_map] at hx
    obtain ⟨j, hj, rfl⟩ := hx
    rw [List.mem_range] at hj ⊢
    exact Nat.mod_lt _ (by omega)
  apply List.Subperm.perm_of_length_le (List.subperm_of_subset hnd hsub)
  rw [List.length_map]

theorem saveStateWrites_eq_nil_iff (E : Nat) (s : Store) (v : Nat) :
    saveStateWrites E s v = [] ↔ eepromRead s.eeprom ((s.eepromIndex <<< 1) + 1) = v := by
  unfold saveStateWrites
  split_ifs with h
  · simp [h]
  · simp [not_not.1 h]

theorem saveState_of_byte_ne (E : Nat) (s : Store) (v : Nat)
    (h : eepromRead s.eeprom ((s.eepromIndex <<< 1) + 1) ≠ v) :
    saveState E s v
      = ⟨eepromWrite (eepromWrite s.eeprom (nextIndex E s.eepromIndex <<< 1)
            (nextPriority E s.eepromPriority))
          ((nextIndex E s.eepromIndex <<< 1) + 1) (3 &&& v),
         nextIndex E s.eepromIndex, nextPriority E s.eepromPriority⟩ := by
  simp [saveState, h]

theorem slotsWritten_eq (E : Nat) (hE : 2 ≤ E) (vs : List Nat) :
    ∀ s : Store, s.eepromIndex < E / 2 →
      slotsWritten E s vs
        = (List.range (slotsWritten E s vs).length).map
            (fun j => (s.eepromIndex + 1 + j) % (E / 2)) := by
  induction vs with
  | nil => intro s _; rfl
  | cons v rest ih =>
    intro s hs
    have hrec := ih (saveState E s v) (saveState_index_lt E s v hE hs)
    by_cases hw : saveStateWrites E s v = []
    · have hunf : slotsWritten E s (v :: rest) = slotsWritten E (saveState E s v) rest := by
        simp [slotsWritten, hw]
      have hsame : saveState E s v = s :=
        saveState_of_byte_eq E s v ((saveStateWrites_eq_nil_iff E s v).1 hw)
      rw [hunf, hrec, List.length_map, List.length_range, hsame]
    · have hunf : slotsWritten E s (v :: rest)
          = (saveState E s v).eepromIndex :: slotsWritten E (saveState E s v) rest := by
        simp [slotsWritten, hw]
      have hne : eepromRead s.eeprom ((s.eepromIndex <<< 1) + 1) ≠ v :=
        fun h => hw ((saveStateWrites_eq_nil_iff E s v).2 h)
      have hidx : (saveState E s v).eepromIndex = (s.eepromIndex + 1) % (E / 2) := by
        rw [saveState_of_byte_ne E s v hne]
        exact nextIndex_eq_mod E _ hs
      rw [hunf, List.length_cons, List.range_succ_eq_map, List.map_cons, List.map_map]
      have htail : slotsWritten E (saveState E s v) rest
          = List.map ((fun j => (s.eepromIndex + 1 + j) % (E / 2)) ∘ Nat.succ)
              (List.range (slotsWritten E (saveState E s v) rest).length) := by
        conv_lhs => rw [hrec]
        apply List.map_congr_left
        intro j _
        simp only [Function.comp, hidx]
        rw [Nat.add_assoc ((s.eepromIndex + 1) % (E / 2)), Nat.mod_add_mod]
        congr 1
        omega
      rw [← htail, hidx]

theorem slotsWritten_perm (E : Nat) (hE : 2 ≤ E) (s : Store) (vs : List Nat)
    (hs : s.eepromIndex < E / 2) (hn : (slotsWritten E s vs).length = E / 2) :
    (slotsWritten E s vs).Perm (List.range (E / 2)) := by
  rw [slotsWritten_eq E hE vs s hs, hn]
  exact range_shift_perm (E / 2) (s.eepromIndex + 1)

theorem eepromRead_write_eq (e : Eeprom) (a v : Nat) (h : v < 256) :
    eepromRead (eepromWrite e a v) a = v := by
  simp only [eepromRead, eepromWrite, if_true, Nat.mod_mod]
  exact Nat.mod_eq_of_lt h

/-- C16 (as stated, fails): the first save after a boot on factory-erased
memory finds `eepromPriority = 0xFF` and writes priority 0, while the successor
of 0xFF modulo `N - 1 = 31` is 8; after a boot on memory whose slot 0 carries
priority 100 the save writes priority 0 as well, while 100 + 1 is 101, and 8
modulo 31. -/
theorem saveState_priority_not_modular :
    ((factoryStore 64).eepromPriority = 255
      ∧ saveStateWrites 64 (factoryStore 64) 0 = [(2, 0), (3, 0)]
      ∧ (255 + 1) % (64 / 2 - 1) = 8)
    ∧ ((restoreState 64 strayPriorityLog).1.eepromPriority = 100
      ∧ saveStateWrites 64 (restoreState 64 strayPriorityLog).1 0 = [(2, 0), (3, 0)]
      ∧ (100 + 1) % (64 / 2 - 1) = 8
      ∧ specSuccessor 64 100 = 101) := by
  decide

/-- C16 (amended): for an `EEPROM_SIZE` from 4 to 512 and a cursor below
`N = EEPROM_SIZE / 2`, a `saveState(v)` that writes moves the cursor to slot
`(eepromIndex + 1) mod N`, sets the priority to `eepromPriority + 1` when that
is below `N - 1` and to 0 otherwise, which is the successor modulo `N - 1`
whenever `eepromPriority <= N - 2`; its two writes set the priority byte and the
value byte `v & 3` of that slot, and every other EEPROM byte is unchanged. Any
run of saves from a cursor below `N` in which `N` saves write, writes each of
the `N` slots exactly once. -/
theorem saveState_writes_next_slot (E : Nat) (s : Store) (v : Nat) (hE : 4 ≤ E)
    (hE' : E ≤ 512) (hi : s.eepromIndex < E / 2)
    (hw : eepromRead s.eeprom ((s.eepromIndex <<< 1) + 1) ≠ v) :
    (saveState E s v).eepromIndex = (s.eepromIndex + 1) % (E / 2)
    ∧ (saveState E s v).eepromPriority
        = (if s.eepromPriority + 1 < E / 2 - 1 then s.eepromPriority + 1 else 0)
    ∧ (s.eepromPriority ≤ E / 2 - 2 →
        (saveState E s v).eepromPriority = (s.eepromPriority + 1) % (E / 2 - 1))
    ∧ saveStateWrites E s v
        = [(2 * ((s.eepromIndex + 1) % (E / 2)), (saveState E s v).eepromPriority),
           (2 * ((s.eepromIndex + 1) % (E / 2)) + 1, 3 &&& v)]
    ∧ eepromRead (saveState E s v).eeprom (2 * ((s.eepromIndex + 1) % (E / 2)))
        = (saveState E s v).eepromPriority
    ∧ eepromRead (saveState E s v).eeprom (2 * ((s.eepromIndex + 1) % (E / 2)) + 1) = 3 &&& v
    ∧ (∀ a, a ≠ 2 * ((s.eepromIndex + 1) % (E / 2)) →
        a ≠ 2 * ((s.eepromIndex + 1) % (E / 2)) + 1 → (saveState E s v).eeprom a = s.eeprom a)
    ∧ ∀ (t : Store) (vs : List Nat), t.eepromIndex < E / 2 →
        (slotsWritten E t vs).length = E / 2 →
        (slotsWritten E t vs).Perm (List.range (E / 2)) := by
  have hidx := nextIndex_eq_mod E s.eepromIndex hi
  have hpri : nextPriority E s.eepromPriority
      = (if s.eepromPriority + 1 < E / 2 - 1 then s.eepromPriority + 1 else 0) := by
    unfold nextPriority
    rw [shiftRight_one]
  have hple := nextPriority_le E s.eepromPriority
  have hm : 3 &&& v < 4 := and_three_lt v
  rw [saveState_of_byte_ne E s v hw]
  dsimp only
  refine ⟨hidx, hpri, fun h => nextPriority_eq_mod E _ hE h, ?_, ?_, ?_, ?_,
    fun t vs ht hn => slotsWritten_perm E (by omega) t vs ht hn⟩
  · have hw' : eepromRead s.eeprom (2 * s.eepromIndex + 1) ≠ v := by
      rwa [shiftLeft_one] at hw
    simp only [saveStateWrites, shiftLeft_one, hidx, if_pos hw']
  · simp only [shiftLeft_one, hidx]
    rw [eepromRead_write_ne _ _ _ _ (by omega), eepromRead_write_eq _ _ _ (by omega)]
  · simp only [shiftLeft_one, hidx]
    rw [eepromRead_write_eq _ _ _ (by omega)]
  · intro a h1 h2
    simp only [eepromWrite, shiftLeft_one, hidx]
    rw [if_neg h2, if_neg h1]

/-- C16 (amended) at the first save on a 64-byte factory-erased EEPROM, and at
the run of 32 saves that follows the boot. -/
theorem saveState_writes_next_slot_witness :
    (saveState 64 (factoryStore 64) 0).eepromIndex = 1
    ∧ (saveState 64 (factoryStore 64) 0).eepromPriority = 0
    ∧ (slotsWritten 64 (factoryStore 64) (cycling 32)).Perm (List.range 32) :=
  have h := saveState_writes_next_slot 64 (factoryStore 64) 0 (by decide) (by decide)
    (by decide) (by decide)
  ⟨h.1, h.2.1, h.2.2.2.2.2.2.2 (factoryStore 64) (cycling 32) (by decide) (by decide)⟩

/-! ## Debounce -/

theorem key_of_reading (r : Bool) : (if !r then HIGH else LOW) = !r := by
  cases r <;> rfl

theorem ulongSub_le (t1 t2 : Nat) (h : t1 ≤ t2) :
    ulongSub (millis t2) (millis t1) ≤ t2 - t1 := by
  unfold ulongSub millis
  omega

theorem readKeys_append (d : Debouncer) (pre : List Poll) (p : Poll) :
    readKeys d (pre ++ [p]) = readKey (readKeys d pre) p := by
  unfold readKeys
  rw [List.foldl_append]
  rfl

theorem prevSample_append (pre : List Poll) :
    ∀ (s0 : Bool) (post : List Poll),
      prevSample s0 (pre ++ post) = prevSample (prevSample s0 pre) post := by
  induction pre with
  | nil => intro s0 post; rfl
  | cons x xs ih => intro s0 post; exact ih x.reading post

theorem prevSample_const (b : List Poll) :
    ∀ r : Bool, (∀ q ∈ b, q.reading = r) → prevSample r b = r := by
  induction b with
  | nil => intro r _; rfl
  | cons x xs ih =>
    intro r h
    have hx : x.reading = r := h x (List.mem_cons_self _ _)
    show prevSample x.reading xs = r
    rw [hx]
    exact ih r (fun q hq => h q (List.mem_cons_of_mem _ hq))

theorem readKey_lastButtonState (d : Debouncer) (p : Poll) :
    (readKey d p).lastButtonState = p.reading := by
  unfold readKey
  dsimp only
  by_cases h : p.reading = d.lastButtonState
  · simp [h]
  · simp [h]

/-- A poll at which the raw sample changes restarts the window and leaves the
stable state as it was. -/
theorem readKey_raw_change (d : Debouncer) (p : Poll) (h : p.reading ≠ d.lastButtonState) :
    (readKey d p).keyState = d.keyState ∧ (readKey d p).lastDebounceTime = millis p.now := by
  have h0 : ulongSub (millis p.now) (millis p.now) = 0 := by
    unfold ulongSub millis
    omega
  unfold readKey
  simp [h, h0, debounceDelay]

/-- A poll at which the raw sample is the one seen before keeps the window and
commits the sample when the window has passed. -/
theorem readKey_steady (d : Debouncer) (p : Poll) (h : p.reading = d.lastButtonState) :
    (readKey d p).lastDebounceTime = d.lastDebounceTime
    ∧ (readKey d p).keyState
        = if debounceDelay < ulongSub (millis p.now) d.lastDebounceTime then !p.reading
          else d.keyState := by
  unfold readKey
  simp only [h, bne_self_eq_false, Bool.false_eq_true, if_false, key_of_reading, gt_iff_lt]
  exact ⟨trivial, trivial⟩

/-- What the polls seen so far say about the `static` locals of `readKey`. -/
theorem readKeys_invariant (sample0 : Bool) (pre : List Poll) :
    (readKeys (readKeyInit sample0) pre).lastButtonState = prevSample sample0 pre
    ∧ (((∀ q ∈ pre, q.reading = sample0)
          ∧ (readKeys (readKeyInit sample0) pre).keyState = !sample0)
        ∨ ∃ a c b, pre = a ++ c :: b ∧ c.reading ≠ prevSample sample0 a
            ∧ (∀ q ∈ b, q.reading = c.reading)
            ∧ (readKeys (readKeyInit sample0) pre).lastDebounceTime = millis c.now) := by
  induction pre using List.reverseRecOn with
  | nil =>
    refine ⟨rfl, Or.inl ⟨(fun q hq => by cases hq), ?_⟩⟩
    exact key_of_reading sample0
  | append_singleton pre p ih =>
    obtain ⟨hl, hcase⟩ := ih
    rw [readKeys_append]
    refine ⟨?_, ?_⟩
    · rw [readKey_lastButtonState, prevSample_append]
      rfl
    · by_cases hch : p.reading = (readKeys (readKeyInit sample0) pre).lastButtonState
      · obtain ⟨hldt, hks⟩ := readKey_steady _ p hch
        rcases hcase with ⟨hall, hkey⟩ | ⟨a, c, b, hpre, hc, hb, ht⟩
        · left
          have hp : p.reading = sample0 := by
            rw [hch, hl, prevSample_const pre sample0 hall]
          refine ⟨?_, ?_⟩
          · intro q hq
            rcases List.mem_append.1 hq with h | h
            · exact hall q h
            · rw [List.mem_singleton] at h
              rw [h]; exact hp
          · rw [hks, hkey, hp]
            split_ifs <;> rfl
        · right
          refine ⟨a, c, b ++ [p], ?_, hc, ?_, ?_⟩
          · rw [hpre]
            simp
          · intro q hq
            rcases List.mem_append.1 hq with h | h
            · exact hb q h
            · rw [List.mem_singleton] at h
              rw [h, hch, hl, hpre, prevSample_append]
              exact prevSample_const b c.reading hb
          · rw [hldt, ht]
      · right
        refine ⟨pre, p, [], rfl, ?_, (fun q hq => by cases hq), (readKey_raw_change _ p hch).2⟩
        rw [← hl]
        exact hch

/-- The stable state changes at a poll only after a raw change followed by
steady samples for more than the debounce window. -/
theorem readKeys_change (sample0 : Bool) (pre : List Poll) (p : Poll)
    (hmono : (pre ++ [p]).Pairwise (fun x y => x.now ≤ y.now))
    (hch : (readKeys (readKeyInit sample0) (pre ++ [p])).keyState
      ≠ (readKeys (readKeyInit sample0) pre).keyState) :
    ∃ a c b, pre = a ++ c :: b ∧ c.reading ≠ prevSample sample0 a
      ∧ (∀ q ∈ b, q.reading = c.reading) ∧ p.reading = c.reading
      ∧ c.now + debounceDelay < p.now := by
  obtain ⟨hl, hcase⟩ := readKeys_invariant sample0 pre
  rw [readKeys_append] at hch
  by_cases hraw : p.reading = (readKeys (readKeyInit sample0) pre).lastButtonState
  · obtain ⟨_, hks⟩ := readKey_steady _ p hraw
    rw [hks] at hch
    by_cases hwin : debounceDelay
        < ulongSub (millis p.now) (readKeys (readKeyInit sample0) pre).lastDebounceTime
    · rw [if_pos hwin] at hch
      rcases hcase with ⟨hall, hkey⟩ | ⟨a, c, b, hpre, hc, hb, ht⟩
      · exfalso
        apply hch
        rw [hkey, hraw, hl, prevSample_const pre sample0 hall]
      · refine ⟨a, c, b, hpre, hc, hb, ?_, ?_⟩
        · rw [hraw, hl, hpre, prevSample_append]
          exact prevSample_const b c.reading hb
        · have hcp : c.now ≤ p.now := by
            rw [hpre] at hmono
            have h1 := (List.pairwise_append.1 hmono).2.2
            exact h1 c (by simp) p (by simp)
          have h2 := ulongSub_le c.now p.now hcp
          rw [ht] at hwin
          omega
    · rw [if_neg hwin] at hch
      exact absurd rfl hch
  · exact absurd (readKey_raw_change _ p hraw).1 hch

/-- From a state in which either the stable state agrees with the last raw
sample, or the window was restarted at a time `tr` at or after `A`, every later
change of the stable state comes more than the debounce window after `A`, and
any two of them are more than the window apart. -/
theorem stableChanges_spacing (polls : List Poll) :
    ∀ (d : Debouncer) (A T : Nat), A ≤ T →
      polls.Pairwise (fun x y => x.now ≤ y.now) → (∀ p ∈ polls, T ≤ p.now) →
      (d.keyState = (!d.lastButtonState)
        ∨ ∃ tr, d.lastDebounceTime = millis tr ∧ A ≤ tr ∧ tr ≤ T) →
      (stableChanges d polls).Pairwise (fun t1 t2 => t1 + debounceDelay < t2)
      ∧ ∀ t ∈ stableChanges d polls, A + debounceDelay < t := by
  induction polls with
  | nil =>
    intro d A T _ _ _ _
    exact ⟨List.Pairwise.nil, fun t ht => by cases ht⟩
  | cons p rest ih =>
    intro d A T hAT hmono hT hinv
    have hTp : T ≤ p.now := hT p (List.mem_cons_self _ _)
    have hrest : ∀ q ∈ rest, p.now ≤ q.now := (List.pairwise_cons.1 hmono).1
    have hmono' := (List.pairwise_cons.1 hmono).2
    by_cases hraw : p.reading = d.lastButtonState
    · obtain ⟨hldt, hks⟩ := readKey_steady d p hraw
      have hlbs : (readKey d p).lastButtonState = d.lastButtonState := by
        rw [readKey_lastButtonState, hraw]
      by_cases hchange : (readKey d p).keyState ≠ d.keyState
      · have hwin : debounceDelay < ulongSub (millis p.now) d.lastDebounceTime := by
          by_contra hn
          rw [if_neg hn] at hks
          exact hchange hks
        rw [if_pos hwin] at hks
        have hsync : (readKey d p).keyState = (!(readKey d p).lastButtonState) := by
          rw [hks, hlbs, hraw]
        have hout : ∃ tr, d.lastDebounceTime = millis tr ∧ A ≤ tr ∧ tr ≤ T := by
          rcases hinv with h | h
          · exfalso
            apply hchange
            rw [hks, h, hraw]
          · exact h
        obtain ⟨tr, htr, hA, htT⟩ := hout
        have hgap : A + debounceDelay < p.now := by
          have h2 := ulongSub_le tr p.now (by omega)
          rw [htr] at hwin
          omega
        obtain ⟨ih1, ih2⟩ := ih (readKey d p) p.now p.now (Nat.le_refl _) hmono' hrest
          (Or.inl hsync)
        have hunf : stableChanges d (p :: rest) = p.now :: stableChanges (readKey d p) rest := by
          simp [stableChanges, hchange]
        rw [hunf]
        refine ⟨List.pairwise_cons.2 ⟨ih2, ih1⟩, ?_⟩
        intro t ht
        rcases List.mem_cons.1 ht with h | h
        · rw [h]; exact hgap
        · have := ih2 t h
          omega
      · have hsame : (readKey d p).keyState = d.keyState := not_not.1 hchange
        have hinv' : (readKey d p).keyState = (!(readKey d p).lastButtonState)
            ∨ ∃ tr, (readKey d p).lastDebounceTime = millis tr ∧ A ≤ tr ∧ tr ≤ p.now := by
          rcases hinv with h | ⟨tr, htr, hA, htT⟩
          · left
            rw [hsame, hlbs, h]
          · right
            exact ⟨tr, by rw [hldt, htr], hA, by omega⟩
        have hunf : stableChanges d (p :: rest) = stableChanges (readKey d p) rest := by
          simp [stableChanges, hsame]
        rw [hunf]
        exact ih (readKey d p) A p.now (by omega) hmono' hrest hinv'
    · obtain ⟨hsame, hldt⟩ := readKey_raw_change d p hraw
      have hunf : stableChanges d (p :: rest) = stableChanges (readKey d p) rest := by
        simp [stableChanges, hsame]
      rw [hunf]
      exact ih (readKey d p) A p.now (by omega) hmono' hrest
        (Or.inr ⟨p.now, hldt, by omega, Nat.le_refl _⟩)

/-- C14: for every run of `readKey()` polls with non-decreasing times, from
the first call on: (1) when the value returned changes at a poll, an earlier
poll saw the raw sample change, every poll since, this one included, saw that
same sample, and this poll is more than 50 ms later than that change; (2) when
no poll finds the sample steady later than 50 ms after a raw change, the value
returned never changes; (3) any two changes of the value returned are more than
50 ms apart. -/
theorem readKey_debounce (sample0 : Bool) (polls : List Poll)
    (hmono : polls.Pairwise (fun p q => p.now ≤ q.now)) :
    (∀ pre p rest, polls = pre ++ p :: rest →
        (readKeys (readKeyInit sample0) (pre ++ [p])).keyState
          ≠ (readKeys (readKeyInit sample0) pre).keyState →
        ∃ a c b, pre = a ++ c :: b ∧ c.reading ≠ prevSample sample0 a
          ∧ (∀ q ∈ b, q.reading = c.reading) ∧ p.reading = c.reading
          ∧ c.now + debounceDelay < p.now)
    ∧ ((∀ a c b q rest, polls = a ++ c :: (b ++ q :: rest) →
          c.reading ≠ prevSample sample0 a → (∀ x ∈ b, x.reading = c.reading) →
          q.reading = c.reading → q.now ≤ c.now + debounceDelay) →
        ∀ pre rest, polls = pre ++ rest →
          (readKeys (readKeyInit sample0) pre).keyState = (readKeyInit sample0).keyState)
    ∧ (stableChanges (readKeyInit sample0) polls).Pairwise
        (fun t1 t2 => t1 + debounceDelay < t2) := by
  have hA : ∀ pre p rest, polls = pre ++ p :: rest →
        (readKeys (readKeyInit sample0) (pre ++ [p])).keyState
          ≠ (readKeys (readKeyInit sample0) pre).keyState →
        ∃ a c b, pre = a ++ c :: b ∧ c.reading ≠ prevSample sample0 a
          ∧ (∀ q ∈ b, q.reading = c.reading) ∧ p.reading = c.reading
          ∧ c.now + debounceDelay < p.now := by
    intro pre p rest hp hch
    apply readKeys_change sample0 pre p _ hch
    rw [hp, show pre ++ p :: rest = (pre ++ [p]) ++ rest by simp] at hmono
    exact (List.pairwise_append.1 hmono).1
  refine ⟨hA, ?_, ?_⟩
  · intro hbounce pre
    induction pre using List.reverseRecOn with
    | nil => intro rest _; rfl
    | append_singleton pre p ih =>
      intro rest hp
      have hp' : polls = pre ++ p :: rest := by rw [hp]; simp
      have hprev := ih (p :: rest) hp'
      by_contra hne
      rw [← hprev] at hne
      obtain ⟨a, c, b, hpre, hc, hb, hpc, hlt⟩ := hA pre p rest hp' hne
      have hle := hbounce a c b p rest (by rw [hp', hpre]; simp) hc hb hpc
      omega
  · exact (stableChanges_spacing polls (readKeyInit sample0) 0 0 (Nat.le_refl _) hmono
      (fun p _ => Nat.zero_le _) (Or.inl (key_of_reading sample0))).1

/-- C14 at the polls of a 60 ms press and its release, whose two stable changes
are 60 ms apart, and at a signal that bounces every 15 ms, which never changes
the stable state. -/
theorem readKey_debounce_witness :
    stableChanges (readKeyInit HIGH) pressPolls = [61, 121]
    ∧ (stableChanges (readKeyInit HIGH) pressPolls).Pairwise
        (fun t1 t2 => t1 + debounceDelay < t2)
    ∧ (readKeys (readKeyInit HIGH) bouncePolls).keyState = LOW :=
  ⟨by decide, (readKey_debounce HIGH pressPolls (by decide)).2.2,
   (readKey_debounce HIGH bouncePolls (by decide)).2.1
     (by
        intro a c b q rest hp _ _ _
        have hall : ∀ x ∈ bouncePolls, 10 ≤ x.now ∧ x.now ≤ 55 := by decide
        have hc := hall c (by rw [hp]; simp)
        have hq := hall q (by rw [hp]; simp)
        unfold debounceDelay
        omega)
     bouncePolls [] (by simp)⟩

/-! ## Baseline of the scan -/

end MassagePillow
